import Mathlib

/-
Verification of flatpak_update.py (a single-file CLI tool that refreshes a
Flatpak manifest from upstream release information).

The Python source is shallowly embedded below:
  * pure functions become Lean functions,
  * Python dicts become association lists with last-write-wins insertion
    (dictInsert) and first-match lookup (sound because dictInsert keeps
    keys unique),
  * fallible code returns Except String (the string is a stand-in for the
    Python exception's rendering; only the ok/error distinction is used),
  * network, filesystem and config-parsing effects are passed in as
    explicit oracles / state values,
  * Python ints are Lean Int, byte strings are List Nat.

Each definition carries a comment naming the Python function (with line
numbers) it embeds.
-/

/-! ## Generic helpers: Python dict / list operations -/

/-- Python dict lookup (d.get(k) flavour): first match wins; the lists built
by dictInsert below have unique keys, so this coincides with dict lookup. -/
def lookupA {α : Type} : List (String × α) → String → Option α
  | [], _ => none
  | (k, v) :: rest, key => if k = key then some v else lookupA rest key

/-- Python dict assignment d[k] = v: replace in place if the key exists,
else append (dicts preserve first-insertion order, last value). -/
def dictInsert {α : Type} : List (String × α) → String → α → List (String × α)
  | [], k, v => [(k, v)]
  | (k0, v0) :: rest, k, v =>
    if k0 = k then (k, v) :: rest else (k0, v0) :: dictInsert rest k v

/-- Build a dict from a list of pairs (dict comprehension / dict(zip(..))):
later duplicates of a key overwrite earlier ones. -/
def dictOf {α : Type} (ps : List (String × α)) : List (String × α) :=
  ps.foldl (fun d p => dictInsert d p.1 p.2) []

/-- Python d[k] (raises KeyError when the key is absent). -/
def keyE {α : Type} (d : List (String × α)) (k : String) : Except String α :=
  match lookupA d k with
  | some v => .ok v
  | none => .error ("KeyError: " ++ k)

/-- Python list[0] (raises IndexError on an empty list). -/
def headE {α : Type} : List α → Except String α
  | [] => .error "IndexError: list index out of range"
  | x :: _ => .ok x

/-- True when an Except carries a value (the call did not raise). -/
def okB {α : Type} : Except String α → Bool
  | .ok _ => true
  | .error _ => false

/-- Map a fallible (Option) function over a list, failing on the first
failure — the shape of a Python loop whose body may raise. -/
def mapOptionL {α β : Type} (f : α → Option β) : List α → Option (List β)
  | [] => some []
  | x :: xs =>
    match f x with
    | none => none
    | some y =>
      match mapOptionL f xs with
      | none => none
      | some ys => some (y :: ys)

/-- Map a fallible (Except) function over a list, propagating the first
raised error. -/
def mapExceptL {α β : Type} (f : α → Except String β) : List α → Except String (List β)
  | [] => .ok []
  | x :: xs =>
    match f x with
    | .error e => .error e
    | .ok y =>
      match mapExceptL f xs with
      | .error e => .error e
      | .ok ys => .ok (y :: ys)

/-! ## Python string primitives used by the source

These are written over List Char with structural recursion so that the
kernel can evaluate them in witnesses. -/

/-- Python str.split(".") on the character list of the string:
"".split(".") == [""], "1..2".split(".") == ["1","","2"]. -/
def splitDot : List Char → List (List Char)
  | [] => [[]]
  | c :: rest =>
    if c = '.' then [] :: splitDot rest
    else
      match splitDot rest with
      | g :: gs => (c :: g) :: gs
      | [] => [[c]]

/-- Value of a nonempty all-digit character list; none otherwise. -/
def digitsVal : List Char → Option Nat
  | [] => none
  | l =>
    if l.all Char.isDigit then
      some (l.foldl (fun a c => a * 10 + (c.toNat - 48)) 0)
    else none

/-- Python int(s) on a decimal string: optional sign then digits.
(Python's int() additionally strips surrounding whitespace and allows
underscore digit separators and non-ASCII digits; those forms are not
modelled — no claim depends on them.) -/
def pyIntL : List Char → Option Int
  | '-' :: rest => (digitsVal rest).map (fun n => -(n : Int))
  | '+' :: rest => (digitsVal rest).map (fun n => (n : Int))
  | l => (digitsVal l).map (fun n => (n : Int))

/-- The shape pyIntL accepts, written as a direct character-level predicate:
an optional sign followed by at least one ASCII digit. -/
def isIntLitL : List Char → Bool
  | '-' :: rest => !rest.isEmpty && rest.all Char.isDigit
  | '+' :: rest => !rest.isEmpty && rest.all Char.isDigit
  | l => !l.isEmpty && l.all Char.isDigit

/-- Python str.replace(old, new), fuel-structured so it kernel-evaluates:
replace non-overlapping occurrences left to right.  (Python's behaviour for
an empty old-string — inserting new between every character — is not
modelled; the source only ever substitutes nonempty literals.) -/
def replaceFuel (pat rep : List Char) : Nat → List Char → List Char
  | 0, s => s
  | _ + 1, [] => []
  | fuel + 1, c :: cs =>
    if pat.isPrefixOf (c :: cs) && !pat.isEmpty then
      rep ++ replaceFuel pat rep fuel ((c :: cs).drop pat.length)
    else
      c :: replaceFuel pat rep fuel cs

/-- Python s.replace(old, new) on strings. -/
def pyReplace (s old new : String) : String :=
  String.mk (replaceFuel old.data new.data s.data.length s.data)

/-- Python ".".join(parts). -/
def joinDot : List String → String
  | [] => ""
  | [s] => s
  | s :: rest => s ++ "." ++ joinDot rest

/-! ## The Version class (flatpak_update.py lines 20-68) -/

/-- Version: the integer tuple plus the optional date annotation
(lines 35-36: self.version_tuple, self.date). -/
structure Version where
  version_tuple : List Int
  date : Option String
deriving DecidableEq, Repr

/-- The tuple elements Python could pass inside a tuple argument to
Version(): an int, a string (int() parses it), or anything else
(int() raises TypeError). -/
inductive PyTupElem where
  | int (i : Int)
  | str (s : String)
  | other
deriving DecidableEq, Repr

/-- The argument shapes Version() distinguishes (lines 28-33):
a str, a tuple, or any other object (ValueError). -/
inductive VerArg where
  | str (s : String)
  | tup (xs : List PyTupElem)
  | other
deriving DecidableEq, Repr

/-- int(x) applied to a tuple element (line 35). -/
def pyIntOf : PyTupElem → Except String Int
  | .int i => .ok i
  | .str s =>
    match pyIntL s.data with
    | some i => .ok i
    | none => .error ("ValueError: invalid literal for int() with base 10: " ++ s)
  | .other => .error "TypeError: int() argument must be a string or a number"

/-- Version.__init__ (lines 27-36): split a string on dots, or take the
tuple as is, then int() each component; any other shape raises. -/
def Version.init : VerArg → Except String Version
  | .str s =>
    match mapOptionL pyIntL (splitDot s.data) with
    | some ints => .ok ⟨ints, none⟩
    | none => .error "ValueError: invalid literal for int() with base 10"
  | .tup xs =>
    match mapExceptL pyIntOf xs with
    | .ok ints => .ok ⟨ints, none⟩
    | .error e => .error e
  | .other => .error "ValueError: Invalid version"

/-- Version.__str__ (lines 42-43): ".".join(str(p) for p in tuple). -/
def Version.str (v : Version) : String :=
  joinDot (v.version_tuple.map (fun i => toString i))

/-- Version.__eq__ (lines 59-60): str(self) == str(other).  The date is
excluded; so is the tuple itself — only the rendered strings compare. -/
def Version.eq (a b : Version) : Bool :=
  a.str == b.str

/-- The tail of Version.__gt__'s loop once one side is exhausted and is
being filled with zeros by zip_longest: compare each remaining component x
against the fill value 0 (skip when equal, decide at the first difference).
gtlFillRight l answers "l > zeros"; "zeros > l" is gtlFillLeft below. -/
def gtlFillRight : List Int → Bool
  | [] => false
  | x :: xs => if x = 0 then gtlFillRight xs else decide (x > 0)

/-- Symmetric tail: the left operand is exhausted, compare fill value 0
against each remaining right component. -/
def gtlFillLeft : List Int → Bool
  | [] => false
  | y :: ys => if (0 : Int) = y then gtlFillLeft ys else decide ((0 : Int) > y)

/-- The loop of Version.__gt__ (lines 62-68): zip_longest with fillvalue 0,
skip equal components, decide at the first difference, else False.  (The
loop is split into the two fill tails above so the recursion is structural
on the first list.) -/
def Version.gtl : List Int → List Int → Bool
  | [], m => gtlFillLeft m
  | x :: xs, [] => if x = 0 then gtlFillRight xs else decide (x > 0)
  | x :: xs, y :: ys => if x = y then Version.gtl xs ys else decide (x > y)

/-- Version.__gt__ (lines 62-68). -/
def Version.gt (a b : Version) : Bool :=
  Version.gtl a.version_tuple b.version_tuple

/-- Version.__lt__ as synthesised by functools.total_ordering from __gt__
and __eq__ (line 20): a < b iff (not a > b) and a != b. -/
def Version.lt (a b : Version) : Bool :=
  !(Version.gt a b || Version.eq a b)

/-! ## Specification-side order definitions (for claims C2, C4, C9)

These follow the spec's words ("lexicographic comparison of zero-padded
integer tuples"), to be compared against the code's Version.gt. -/

/-- Zero-pad a tuple on the right to length n. -/
def padTo (l : List Int) (n : Nat) : List Int :=
  l ++ List.replicate (n - l.length) (0 : Int)

/-- Strict lexicographic comparison of two equal-length integer lists. -/
def lexGt : List Int → List Int → Bool
  | x :: xs, y :: ys => if x = y then lexGt xs ys else decide (x > y)
  | _, _ => false

/-- Every component is zero. -/
def allZero (l : List Int) : Bool :=
  l.all (fun x => x == 0)

/-- The tuples are equal after zero-padding to a common length. -/
def eqPad : List Int → List Int → Bool
  | [], m => allZero m
  | x :: xs, [] => x == 0 && allZero xs
  | x :: xs, y :: ys => x == y && eqPad xs ys

/-- Structural equality test for Except values, used only to let `decide`
settle concrete evaluations of the embedded fallible functions. -/
instance instDecEqExceptStr {ε α : Type} [DecidableEq ε] [DecidableEq α] :
    DecidableEq (Except ε α) := fun a b =>
  match a, b with
  | .ok x, .ok y =>
    if h : x = y then isTrue (by rw [h])
    else isFalse (by intro hh; cases hh; exact h rfl)
  | .error x, .error y =>
    if h : x = y then isTrue (by rw [h])
    else isFalse (by intro hh; cases hh; exact h rfl)
  | .ok _, .error _ => isFalse (by intro hh; cases hh)
  | .error _, .ok _ => isFalse (by intro hh; cases hh)

/-! ## Runtime values flowing through the script

The version-lookup layer of the script manipulates heterogeneous Python
values: Version instances, un-awaited coroutine objects (get_latest_version,
lines 142-153, assigns a resolver coroutine without awaiting it), plain
strings and None.  PyVal is that value universe. -/

inductive PyVal where
  /-- a Version instance -/
  | vVersion (v : Version)
  /-- an un-awaited coroutine object; fn is the async function whose call
  produced it, ty the spec type it was dispatched on -/
  | vCoroutine (fn : String) (ty : String)
  /-- a str -/
  | vStr (s : String)
  /-- None -/
  | vNone
deriving DecidableEq, Repr

/-- isinstance(v, Version). -/
def PyVal.isVersion : PyVal → Bool
  | .vVersion _ => true
  | _ => false

/-- Python str(value): Version renders via __str__, a coroutine via its
default repr, None as "None". -/
def pyStr : PyVal → String
  | .vVersion v => v.str
  | .vCoroutine fn _ => "<coroutine object " ++ fn ++ ">"
  | .vStr s => s
  | .vNone => "None"

/-- Attribute access value.date (used at line 235): a Version yields its
date field (None or a str); any other value raises AttributeError. -/
def pyDate : PyVal → Except String PyVal
  | .vVersion v =>
    .ok (match v.date with
         | some d => .vStr d
         | none => .vNone)
  | .vCoroutine fn _ =>
    .error ("AttributeError: coroutine object " ++ fn ++ " has no attribute date")
  | _ => .error "AttributeError: object has no attribute date"

/-- The comparison value > other at line 236, where other is a Version from
the manifest.  Version.__gt__ iterates zip_longest(self, other); when the
left value is not a Version, Python falls back to the reflected
Version.__lt__, whose total_ordering body calls Version.__gt__(coroutine),
and zip_longest then raises TypeError because a coroutine is not iterable.
Either way a non-Version left operand raises. -/
def pyGtVersion : PyVal → Version → Except String Bool
  | .vVersion a, b => .ok (Version.gt a b)
  | _, _ => .error "TypeError: argument of type coroutine is not iterable"

/-! ## Component specs and config (config file schema, used by main) -/

/-- A get_version resolver spec; only the dispatch type matters at the
get_latest_version level (the resolver parameters live behind the
un-awaited coroutine). -/
structure GetVersionSpec where
  type : String
deriving DecidableEq, Repr

/-- One entry of config["modules"] (also config["runtime"]): name,
source_url template and resolver spec. -/
structure ModuleSpec where
  name : String
  source_url : String
  get_version : GetVersionSpec
deriving DecidableEq, Repr

/-- The parsed YAML config: top-level runtime spec plus module specs. -/
structure Config where
  runtime : ModuleSpec
  modules : List ModuleSpec
deriving DecidableEq, Repr

/-! ## Version orchestrator (lines 142-161)

get_latest_version (lines 142-153) dispatches on spec["type"] but assigns
the bare resolver call without awaiting it — in Python, calling an async
function returns a coroutine object, so the returned value is that
coroutine, not a Version.  asyncio.gather in get_latest_versions awaits the
get_latest_version coroutines only, not their returned inner coroutines. -/

/-- get_latest_version (lines 142-153). -/
def get_latest_version (spec : GetVersionSpec) : Except String PyVal :=
  if spec.type = "scrape" then
    .ok (.vCoroutine "get_version_scrape" spec.type)
  else if spec.type = "github_branches" then
    .ok (.vCoroutine "get_version_github_branches" spec.type)
  else if spec.type = "github_releases" then
    .ok (.vCoroutine "get_version_github_releases" spec.type)
  else
    .error ("Bad spec type: " ++ spec.type)

/-- asyncio.gather over get_latest_version(s["get_version"]) for each spec
(line 158-160): sequential first-error model of gather — if any lookup
raises, the whole batch raises that error. -/
def gatherVersions : List ModuleSpec → Except String (List PyVal)
  | [] => .ok []
  | s :: rest =>
    match get_latest_version s.get_version with
    | .error e => .error e
    | .ok v =>
      match gatherVersions rest with
      | .error e => .error e
      | .ok vs => .ok (v :: vs)

/-- get_latest_versions (lines 156-161): dict comprehension
{s["name"]: v for s, v in zip(specs, versions)}. -/
def get_latest_versions (specs : List ModuleSpec) : Except String (List (String × PyVal)) :=
  match gatherVersions specs with
  | .error e => .error e
  | .ok versions => .ok (dictOf ((specs.map (fun s => s.name)).zip versions))

/-! ## GitHub releases/tags resolver core (lines 98-121, claim C6)

The network fetch is abstracted: the resolver is modelled from the point
where `data` (the decoded JSON list of release/tag objects) is available.
Each JSON object is a dict; RelItem keeps its "name" field and an abstract
payload standing for the rest of the dict (two items are the same Python
dict value iff name and payload agree).  The set_date block (lines
123-137) issues a second HTTP request and datetime parsing and happens
after the max is chosen; it is outside this claim and not modelled. -/

structure RelItem where
  name : String
  payload : Nat
deriving DecidableEq, Repr

/-- The substitution loop (lines 113-114): successive str.replace. -/
def applySubs (subs : List (String × String)) (s : String) : String :=
  subs.foldl (fun acc p => pyReplace acc p.1 p.2) s

/-- The try/except loop (lines 111-120): build (Version, item) pairs,
silently skipping names whose substituted form fails to parse. -/
def parseEntries (subs : List (String × String)) (data : List RelItem) :
    List (Version × RelItem) :=
  data.filterMap (fun item =>
    match Version.init (.str (applySubs subs item.name)) with
    | .ok v => some (v, item)
    | .error _ => none)

/-- Python's (version, item) > (best_version, best_item) tuple comparison
used by max at line 121: tuples compare the versions with == first
(Version.__eq__, i.e. string equality); on a tie the dicts are compared
with >, which raises TypeError unless they are the very same dict value
(== succeeding and ending the scan with False). -/
def pairGt (x b : Version × RelItem) : Except String Bool :=
  if Version.eq x.1 b.1 then
    if x.2 = b.2 then .ok false
    else .error "TypeError: unorderable types: dict() > dict()"
  else .ok (Version.gt x.1 b.1)

/-- Python max() over the (version, item) pairs (line 121): keep the first
element, replace it whenever a later element compares greater; an empty
sequence raises ValueError. -/
def pyMaxFold : List (Version × RelItem) → (Version × RelItem) →
    Except String (Version × RelItem)
  | [], b => .ok b
  | x :: xs, b =>
    match pairGt x b with
    | .error e => .error e
    | .ok g => pyMaxFold xs (if g then x else b)

/-- max(versions) (line 121). -/
def pyMax : List (Version × RelItem) → Except String (Version × RelItem)
  | [] => .error "ValueError: max() arg is an empty sequence"
  | x :: xs => pyMaxFold xs x

/-- get_version_github_releases (lines 98-121), from the decoded response
onwards, without the set_date block: returns the chosen
(version, metadata) pair of line 121. -/
def get_version_github_releases (subs : List (String × String))
    (data : List RelItem) : Except String (Version × RelItem) :=
  pyMax (parseEntries subs data)

/-! ## Manifest reading (lines 164-182) -/

/-- One element of a module's "sources" list: url and pinned sha256. -/
structure SrcEntry where
  url : String
  sha256 : String
deriving DecidableEq, Repr

/-- One element of manifest["modules"]. -/
structure ManifestModule where
  name : String
  sources : List SrcEntry
deriving DecidableEq, Repr

/-- The parsed manifest (YAML/JSON decoding is out of scope; the manifest
arrives parsed). -/
structure Manifest where
  runtime_version : String
  modules : List ManifestModule
deriving DecidableEq, Repr

/-- Character class [0-9.] of the source-URL regex. -/
def isVerChar (c : Char) : Bool :=
  c.isDigit || c = '.'

/-- Try to match the regex -([0-9.]+)\.tar\.gz$ anchored at a '-' already
consumed: the rest of the string must be a nonempty [0-9.] run followed
immediately by the literal ".tar.gz" at the end of the string. -/
def tarGzGroup (rest : List Char) : Option (List Char) :=
  let n := rest.length - 7
  let g := rest.take n
  if 1 ≤ n ∧ rest.drop n = ".tar.gz".data ∧ g.all isVerChar then some g
  else none

/-- re.search(r"-([0-9\.]+)\.tar\.gz$", url) (line 179): scan left to
right for the first '-' at which the anchored pattern matches, returning
the capture group. -/
def searchTarGz : List Char → Option (List Char)
  | [] => none
  | c :: rest =>
    if c = '-' then
      match tarGzGroup rest with
      | some g => some g
      | none => searchTarGz rest
    else searchTarGz rest

/-- get_current_versions (lines 175-182): runtime version from the
manifest field, per-module version parsed out of the first source URL;
a module whose URL does not match raises (match.group(1) on None). -/
def get_current_versions (manifest : Manifest) :
    Except String (List (String × Version)) :=
  match Version.init (.str manifest.runtime_version) with
  | .error e => .error e
  | .ok rv => currentLoop manifest.modules (dictInsert [] "runtime" rv)
where
  currentLoop : List ManifestModule → List (String × Version) →
      Except String (List (String × Version))
  | [], acc => .ok acc
  | m :: rest, acc =>
    match headE m.sources with
    | .error e => .error e
    | .ok src =>
      match searchTarGz src.url.data with
      | none => .error "AttributeError: NoneType object has no attribute group"
      | some g =>
        match Version.init (.str (String.mk g)) with
        | .error e => .error e
        | .ok v => currentLoop rest (dictInsert acc m.name v)

/-! ## SHA-256 (hashlib.sha256) and the checksum fetcher (lines 185-221)

hashlib is modelled functionally: an object accumulates the bytes fed to
update(), and hexdigest() is SHA-256 (FIPS 180-4) of the accumulated
bytes.  Bytes are Nats (< 256 in every real input); 32-bit words are Nats
reduced mod 2^32 wherever overflow matters. -/

def MOD32 : Nat := 4294967296

/-- 32-bit right rotation. -/
def rotr32 (x n : Nat) : Nat :=
  ((x >>> n) ||| (x <<< (32 - n))) % MOD32

/-- The SHA-256 round constants (FIPS 180-4), written in decimal. -/
def K256 : List Nat :=
  [1116352408, 1899447441, 3049323471, 3921009573, 961987163,
   1508970993, 2453635748, 2870763221, 3624381080, 310598401,
   607225278, 1426881987, 1925078388, 2162078206, 2614888103,
   3248222580, 3835390401, 4022224774, 264347078, 604807628,
   770255983, 1249150122, 1555081692, 1996064986, 2554220882,
   2821834349, 2952996808, 3210313671, 3336571891, 3584528711,
   113926993, 338241895, 666307205, 773529912, 1294757372,
   1396182291, 1695183700, 1986661051, 2177026350, 2456956037,
   2730485921, 2820302411, 3259730800, 3345764771, 3516065817,
   3600352804, 4094571909, 275423344, 430227734, 506948616,
   659060556, 883997877, 958139571, 1322822218, 1537002063,
   1747873779, 1955562222, 2024104815, 2227730452, 2361852424,
   2428436474, 2756734187, 3204031479, 3329325298]

/-- The SHA-256 initial hash values (FIPS 180-4), written in decimal. -/
def H256 : List Nat :=
  [1779033703, 3144134277, 1013904242, 2773480762,
   1359893119, 2600822924, 528734635, 1541459225]

/-- SHA-256 padding: 0x80, zeros to 56 mod 64, 64-bit big-endian bit
length. -/
def padMsg (bs : List Nat) : List Nat :=
  let L := bs.length
  let zeros := (120 - ((L + 1) % 64)) % 64
  bs ++ [128] ++ List.replicate zeros 0 ++
    (List.range 8).map (fun i => ((8 * L) >>> (8 * (7 - i))) % 256)

/-- Split a byte list into chunks of n bytes (the last one may be short). -/
def chunksOf (n : Nat) (bs : List Nat) : List (List Nat) :=
  if bs = [] ∨ n = 0 then [] else bs.take n :: chunksOf n (bs.drop n)
termination_by bs.length
decreasing_by
  rename_i h
  push_neg at h
  have h1 : 0 < bs.length := List.length_pos.mpr h.1
  simp only [List.length_drop]
  omega

/-- Four big-endian bytes to one 32-bit word, over a whole block. -/
def toWords : List Nat → List Nat
  | b0 :: b1 :: b2 :: b3 :: rest =>
    (((b0 * 256 + b1) * 256 + b2) * 256 + b3) :: toWords rest
  | _ => []

/-- Sigma0 (lowercase) of the message schedule. -/
def smallSigma0 (x : Nat) : Nat :=
  (rotr32 x 7) ^^^ (rotr32 x 18) ^^^ (x >>> 3)

/-- Sigma1 (lowercase) of the message schedule. -/
def smallSigma1 (x : Nat) : Nat :=
  (rotr32 x 17) ^^^ (rotr32 x 19) ^^^ (x >>> 10)

/-- Extend the message schedule by one word. -/
def scheduleStep (w : List Nat) : List Nat :=
  let n := w.length
  w ++ [(smallSigma1 (w.getD (n - 2) 0) + w.getD (n - 7) 0 +
         smallSigma0 (w.getD (n - 15) 0) + w.getD (n - 16) 0) % MOD32]

/-- The 64-word message schedule from the 16 block words. -/
def schedule (w : List Nat) : List Nat :=
  scheduleStep^[48] w

/-- One SHA-256 compression round on the 8-word working state. -/
def compressStep (st : List Nat) (kw : Nat × Nat) : List Nat :=
  match st with
  | [a, b, c, d, e, f, g, h] =>
    let s1 := (rotr32 e 6) ^^^ (rotr32 e 11) ^^^ (rotr32 e 25)
    let ch := (e &&& f) ^^^ ((e ^^^ 4294967295) &&& g)
    let t1 := (h + s1 + ch + kw.1 + kw.2) % MOD32
    let s0 := (rotr32 a 2) ^^^ (rotr32 a 13) ^^^ (rotr32 a 22)
    let maj := (a &&& b) ^^^ (a &&& c) ^^^ (b &&& c)
    let t2 := (s0 + maj) % MOD32
    [(t1 + t2) % MOD32, a, b, c, (d + t1) % MOD32, e, f, g]
  | other => other

/-- Process one 64-byte block. -/
def compressBlock (h block : List Nat) : List Nat :=
  let w := schedule (toWords block)
  let st := (K256.zip w).foldl compressStep h
  (h.zip st).map (fun p => (p.1 + p.2) % MOD32)

/-- SHA-256 of a byte list, as the 8 final hash words. -/
def sha256words (bs : List Nat) : List Nat :=
  (chunksOf 64 (padMsg bs)).foldl compressBlock H256

/-- One hex digit. -/
def hexDigit (n : Nat) : Char :=
  Char.ofNat (if n < 10 then 48 + n else 87 + n)

/-- A 32-bit word as 8 lowercase hex characters. -/
def hexWord (w : Nat) : String :=
  String.mk ((List.range 8).map (fun i => hexDigit ((w >>> (4 * (7 - i))) % 16)))

/-- hashlib.sha256(bytes).hexdigest(). -/
def sha256hex (bs : List Nat) : String :=
  String.join ((sha256words bs).map hexWord)

/-- A hashlib.sha256 object fed a sequence of update(chunk) calls and then
asked for hexdigest(): the digest of the concatenation of the chunks. -/
def hashChunksHex (chunks : List (List Nat)) : String :=
  sha256hex (chunks.foldl (fun acc c => acc ++ c) [])

/-- The on-disk state get_sha256 interacts with: path → file bytes.
Entries are created by streaming downloads and never evicted. -/
structure FsState where
  files : List (String × List Nat)
deriving DecidableEq, Repr

/-- Path(url).name: everything after the last '/'.  (pathlib additionally
normalises a trailing slash away; URLs here always end in a file name.) -/
def basename (url : String) : String :=
  String.mk (url.data.foldl (fun acc c => if c = '/' then [] else acc ++ [c]) [])

/-- The observable outcome of one get_sha256 call: the hex digest, the
filesystem afterwards, and whether a download was issued. -/
structure Sha256Run where
  digest : String
  state : FsState
  downloaded : Bool
deriving DecidableEq, Repr

/-- get_sha256 (lines 185-203): if no file with the URL's basename exists
in the download directory, stream the body to that file; then hash the
file by reading 2^16-byte chunks until exhausted. -/
def get_sha256 (net : String → List Nat) (st : FsState)
    (download_dir url : String) : Sha256Run :=
  let output_path := download_dir ++ "/" ++ basename url
  match lookupA st.files output_path with
  | some bytes => ⟨hashChunksHex (chunksOf 65536 bytes), st, false⟩
  | none =>
    let content := net url
    let st2 : FsState := ⟨dictInsert st.files output_path content⟩
    ⟨hashChunksHex (chunksOf 65536 content), st2, true⟩

/-- get_sha256_set (lines 206-221): cache directory ".cache" (mkdir is a
no-op in the model), one get_sha256 per url — concurrent in the source but
over distinct cache files, so the sequential threading below is a faithful
linearisation — and a dict mapping {name}_sha256 to the digests. -/
def get_sha256_set (net : String → List Nat) (st : FsState)
    (named_urls : List (String × String)) : (List (String × String)) × FsState :=
  let r := named_urls.foldl
    (fun (acc : List String × FsState) p =>
      let run := get_sha256 net acc.2 ".cache" p.2
      (acc.1 ++ [run.digest], run.state))
    ([], st)
  (dictOf ((named_urls.map (fun p => p.1 ++ "_sha256")).zip r.1), r.2)

/-! ## Template variable builder (lines 224-246, claim C7) -/

/-- spec["source_url"].format(version=value): substitute the {version}
placeholder with str(value).  (Other format-spec features of str.format
are not exercised by the source's URL templates.) -/
def pyFormat (tmpl value : String) : String :=
  pyReplace tmpl "{version}" value

/-- The inner loop of get_template_vars' else branch (lines 239-241):
every manifest module whose name matches writes
env[f"{name}_sha256"] — with duplicates the last match wins. -/
def manifestShaLoop (name : String) :
    List ManifestModule → List (String × PyVal) →
    Except String (List (String × PyVal))
  | [], env => .ok env
  | m :: rest, env =>
    if m.name = name then
      match headE m.sources with
      | .error e => .error e
      | .ok src =>
        manifestShaLoop name rest
          (dictInsert env (name ++ "_sha256") (.vStr src.sha256))
    else manifestShaLoop name rest env

/-- The per-module loop of get_template_vars (lines 229-241), carrying the
env dict and the remote_sha256 dict (the fresh-checksum batch). -/
def tvLoop (cur : List (String × Version)) (new : List (String × PyVal))
    (man : Manifest) :
    List ModuleSpec → List (String × PyVal) → List (String × String) →
    Except String (List (String × PyVal) × List (String × String))
  | [], env, remote => .ok (env, remote)
  | spec :: rest, env, remote =>
    match keyE new spec.name with
    | .error e => .error e
    | .ok nv =>
      let env1 := dictInsert env (spec.name ++ "_version") nv
      let sUrl := pyFormat spec.source_url (pyStr nv)
      let env2 := dictInsert env1 (spec.name ++ "_source_url") (.vStr sUrl)
      match pyDate nv with
      | .error e => .error e
      | .ok d =>
        let env3 := dictInsert env2 (spec.name ++ "_version_date") d
        match keyE cur spec.name with
        | .error e => .error e
        | .ok cv =>
          match pyGtVersion nv cv with
          | .error e => .error e
          | .ok g =>
            if g then
              tvLoop cur new man rest env3 (dictInsert remote spec.name sUrl)
            else
              match manifestShaLoop spec.name man.modules env3 with
              | .error e => .error e
              | .ok env4 => tvLoop cur new man rest env4 remote

/-- get_template_vars (lines 224-246): build the env dict, batch the
newer-version modules into remote_sha256, fetch those digests
(asyncio.run(get_sha256_set(..))) and merge them into env. -/
def get_template_vars (net : String → List Nat) (st : FsState) (config : Config)
    (current_versions : List (String × Version))
    (new_versions : List (String × PyVal)) (manifest : Manifest) :
    Except String (List (String × PyVal) × FsState) :=
  match keyE new_versions "runtime" with
  | .error e => .error e
  | .ok rv =>
    match tvLoop current_versions new_versions manifest config.modules
        (dictInsert [] "runtime_version" rv) [] with
    | .error e => .error e
    | .ok (env, remote) =>
      let r := get_sha256_set net st remote
      .ok (r.1.foldl (fun e p => dictInsert e p.1 (.vStr p.2)) env, r.2)

/-! ## Template renderer (lines 249-255, claim C3)

jinja2 is external; its relevant semantics are embedded for the exact way
the source instantiates it: jinja2.Template(text) with all defaults, so
undefined names use jinja2.Undefined, whose string rendering is the empty
string — referencing an absent variable does NOT raise.  A template is
modelled as parsed: a sequence of literal segments and simple
variable substitutions (the only constructs the repo's templates use). -/

inductive TplNode where
  | lit (s : String)
  | varRef (x : String)
deriving DecidableEq, Repr

/-- jinja2.Template(text).render(**env) with the default (lenient)
undefined: an absent variable renders as the empty string. -/
def renderDefault (env : List (String × PyVal)) (t : List TplNode) : String :=
  (t.map (fun n =>
    match n with
    | .lit s => s
    | .varRef x =>
      match lookupA env x with
      | some v => pyStr v
      | none => "")).foldl (fun a s => a ++ s) ""

/-- Modelled from the spec: the renderer the spec describes ("Fails if a
referenced variable is absent from the environment (undefined-variable
error surfaces to the caller)") — i.e. jinja2 with StrictUndefined, which
the source does not use.  Kept for comparison with renderDefault. -/
def renderStrict (env : List (String × PyVal)) (t : List TplNode) :
    Except String String :=
  match mapExceptL (fun n =>
    match n with
    | .lit s => Except.ok s
    | .varRef x =>
      match lookupA env x with
      | some v => Except.ok (pyStr v)
      | none => Except.error ("UndefinedError: " ++ x ++ " is undefined")) t with
  | .error e => .error e
  | .ok parts => .ok (parts.foldl (fun a s => a ++ s) "")

/-- A *.j2 file found in the template directory: the output name
(path.stem) and the parsed template text. -/
structure TemplateFile where
  stem : String
  content : List TplNode
deriving DecidableEq, Repr

/-- render_templates (lines 249-255): render every template against env
and emit (output-name, rendered-text) pairs. -/
def render_templates (env : List (String × PyVal))
    (files : List TemplateFile) : List (String × String) :=
  files.map (fun f => (f.stem, renderDefault env f.content))

/-! ## CLI and main (lines 258-284, claim C10) -/

/-- The flag values present on the command line. -/
structure CmdLine where
  config : Option String
  manifest : Option String
  template_dir : Option String
deriving DecidableEq, Repr

/-- The parsed argument namespace. -/
structure Args where
  config : String
  manifest : String
  template_dir : Option String
deriving DecidableEq, Repr

/-- parse_args (lines 258-268): --config and --manifest are required
(argparse exits when absent); --template-dir is optional and defaults to
None. -/
def parse_args (cmd : CmdLine) : Except String Args :=
  match cmd.config, cmd.manifest with
  | some c, some m => .ok ⟨c, m, cmd.template_dir⟩
  | _, _ => .error "error: the following arguments are required"

/-- Path(x) applied to args.template_dir: Path(None) raises TypeError. -/
def pyPath : Option String → Except String String
  | some s => .ok s
  | none => .error "TypeError: argument should be a str or an os.PathLike object, not NoneType"

/-- main (lines 271-284); the name main itself is reserved by Lean, hence
mainEntry.  External effects arrive as oracles: loadCfg
and loadMan stand for the YAML/JSON parsing of the files named by the
flags, net for HTTP bodies, st for the filesystem, tplFiles for the
directory listing of *.j2 files.  Returns the rendered
(output-name, text) pairs. -/
def mainEntry (cmd : CmdLine) (loadCfg : String → Config) (loadMan : String → Manifest)
    (net : String → List Nat) (st : FsState)
    (tplFiles : String → List TemplateFile) :
    Except String (List (String × String)) :=
  match parse_args cmd with
  | .error e => .error e
  | .ok args =>
    let config := loadCfg args.config
    match get_latest_versions (config.runtime :: config.modules) with
    | .error e => .error e
    | .ok new_versions =>
      let manifest := loadMan args.manifest
      match get_current_versions manifest with
      | .error e => .error e
      | .ok current_versions =>
        match get_template_vars net st config current_versions new_versions manifest with
        | .error e => .error e
        | .ok (env, _) =>
          match pyPath args.template_dir with
          | .error e => .error e
          | .ok td => .ok (render_templates env (tplFiles td))


/-! ## Order lemmas: Version.gtl against the zero-padded lexicographic order -/

lemma allZero_iff {m : List Int} : allZero m = true ↔ ∀ x ∈ m, x = 0 := by
  simp [allZero]

lemma gtlFillLeft_zeros {m : List Int} (h : ∀ x ∈ m, x = 0) :
    gtlFillLeft m = false := by
  induction m with
  | nil => rfl
  | cons y ys ih =>
    have hy : y = 0 := h y (by simp)
    simp [gtlFillLeft, hy.symm, ih (fun x hx => h x (by simp [hx]))]

lemma gtlFillRight_zeros {m : List Int} (h : ∀ x ∈ m, x = 0) :
    gtlFillRight m = false := by
  induction m with
  | nil => rfl
  | cons y ys ih =>
    have hy : y = 0 := h y (by simp)
    simp [gtlFillRight, hy, ih (fun x hx => h x (by simp [hx]))]

lemma zeros_replicate (k : Nat) : ∀ x ∈ List.replicate k (0 : Int), x = 0 := by
  intro x hx
  exact List.eq_of_mem_replicate hx

lemma gtl_nil_right (l : List Int) : Version.gtl l [] = gtlFillRight l := by
  cases l <;> rfl

lemma gtlFillLeft_append_zeros (m : List Int) (k : Nat) :
    gtlFillLeft (m ++ List.replicate k 0) = gtlFillLeft m := by
  induction m with
  | nil => simp [gtlFillLeft, gtlFillLeft_zeros (zeros_replicate k)]
  | cons y ys ih => simp [gtlFillLeft, ih]

lemma gtlFillRight_append_zeros (m : List Int) (k : Nat) :
    gtlFillRight (m ++ List.replicate k 0) = gtlFillRight m := by
  induction m with
  | nil => simp [gtlFillRight, gtlFillRight_zeros (zeros_replicate k)]
  | cons y ys ih => simp [gtlFillRight, ih]

lemma gtl_replicate_right (l : List Int) (k : Nat) :
    Version.gtl l (List.replicate k 0) = gtlFillRight l := by
  induction l generalizing k with
  | nil =>
    simp [Version.gtl, gtlFillLeft_zeros (zeros_replicate k), gtlFillRight]
  | cons x xs ih =>
    cases k with
    | zero => simpa [List.replicate] using gtl_nil_right (x :: xs)
    | succ j => simp [List.replicate, Version.gtl, gtlFillRight, ih]

lemma gtl_replicate_left (m : List Int) (k : Nat) :
    Version.gtl (List.replicate k 0) m = gtlFillLeft m := by
  induction k generalizing m with
  | zero => simp [List.replicate, Version.gtl]
  | succ j ih =>
    cases m with
    | nil =>
      simp [List.replicate, Version.gtl, gtlFillLeft,
        gtlFillRight_zeros (zeros_replicate j)]
    | cons y ys => simp [List.replicate, Version.gtl, gtlFillLeft, ih]

lemma gtl_append_zeros_right (l m : List Int) (k : Nat) :
    Version.gtl l (m ++ List.replicate k 0) = Version.gtl l m := by
  induction m generalizing l with
  | nil => rw [List.nil_append, gtl_replicate_right, gtl_nil_right]
  | cons y ys ih =>
    cases l with
    | nil =>
      show gtlFillLeft ((y :: ys) ++ List.replicate k 0) = gtlFillLeft (y :: ys)
      exact gtlFillLeft_append_zeros (y :: ys) k
    | cons x xs => simp [Version.gtl, ih]

lemma gtl_append_zeros_left (l m : List Int) (k : Nat) :
    Version.gtl (l ++ List.replicate k 0) m = Version.gtl l m := by
  induction l generalizing m with
  | nil =>
    rw [List.nil_append, gtl_replicate_left]
    cases m <;> rfl
  | cons x xs ih =>
    cases m with
    | nil =>
      rw [gtl_nil_right, gtl_nil_right]
      show gtlFillRight ((x :: xs) ++ List.replicate k 0) = gtlFillRight (x :: xs)
      exact gtlFillRight_append_zeros (x :: xs) k
    | cons y ys => simp [Version.gtl, ih]

lemma gtl_eq_lexGt {l m : List Int} (h : l.length = m.length) :
    Version.gtl l m = lexGt l m := by
  induction l generalizing m with
  | nil =>
    cases m with
    | nil => rfl
    | cons y ys => simp at h
  | cons x xs ih =>
    cases m with
    | nil => simp at h
    | cons y ys =>
      simp only [List.length_cons, Nat.succ.injEq] at h
      simp [Version.gtl, lexGt, ih h]

lemma padTo_length {l : List Int} {n : Nat} (h : l.length ≤ n) :
    (padTo l n).length = n := by
  simp [padTo]
  omega

lemma gtl_padTo {l m : List Int} {n : Nat} (hl : l.length ≤ n) (hm : m.length ≤ n) :
    Version.gtl l m = lexGt (padTo l n) (padTo m n) := by
  have h1 : Version.gtl l m = Version.gtl (padTo l n) (padTo m n) := by
    unfold padTo
    rw [gtl_append_zeros_left, gtl_append_zeros_right]
  rw [h1]
  exact gtl_eq_lexGt ((padTo_length hl).trans (padTo_length hm).symm)

lemma lexGt_irrefl (l : List Int) : lexGt l l = false := by
  induction l with
  | nil => rfl
  | cons x xs ih => simp [lexGt, ih]

lemma lexGt_trans {a b c : List Int} (hab : a.length = b.length)
    (hbc : b.length = c.length) (h1 : lexGt a b = true) (h2 : lexGt b c = true) :
    lexGt a c = true := by
  induction a generalizing b c with
  | nil =>
    cases b with
    | nil => simp [lexGt] at h1
    | cons y ys => simp at hab
  | cons x xs ih =>
    cases b with
    | nil => simp at hab
    | cons y ys =>
      cases c with
      | nil => simp at hbc
      | cons z zs =>
        simp only [List.length_cons, Nat.succ.injEq] at hab hbc
        simp only [lexGt] at h1 h2 ⊢
        by_cases hxy : x = y <;> by_cases hyz : y = z
        · rw [if_pos hxy] at h1
          rw [if_pos hyz] at h2
          rw [if_pos (hxy.trans hyz)]
          exact ih hab hbc h1 h2
        · rw [if_neg hyz] at h2
          have hgt : y > z := by simpa using h2
          rw [if_neg (by omega : ¬ x = z)]
          simp only [decide_eq_true_eq]
          omega
        · rw [if_neg hxy] at h1
          have hgt : x > y := by simpa using h1
          rw [if_neg (by omega : ¬ x = z)]
          simp only [decide_eq_true_eq]
          omega
        · rw [if_neg hxy] at h1
          rw [if_neg hyz] at h2
          have hg1 : x > y := by simpa using h1
          have hg2 : y > z := by simpa using h2
          rw [if_neg (by omega : ¬ x = z)]
          simp only [decide_eq_true_eq]
          omega

lemma lexGt_both_false {a b : List Int} (hab : a.length = b.length)
    (h1 : lexGt a b = false) (h2 : lexGt b a = false) : a = b := by
  induction a generalizing b with
  | nil =>
    cases b with
    | nil => rfl
    | cons y ys => simp at hab
  | cons x xs ih =>
    cases b with
    | nil => simp at hab
    | cons y ys =>
      simp only [List.length_cons, Nat.succ.injEq] at hab
      simp only [lexGt] at h1 h2
      by_cases hxy : x = y
      · rw [if_pos hxy] at h1
        rw [if_pos (hxy.symm)] at h2
        rw [hxy, ih hab h1 h2]
      · rw [if_neg hxy] at h1
        rw [if_neg (fun h => hxy h.symm)] at h2
        simp only [decide_eq_false_iff_not] at h1 h2
        omega

lemma gtl_irrefl (l : List Int) : Version.gtl l l = false := by
  rw [gtl_padTo (Nat.le_refl l.length) (Nat.le_refl l.length)]
  exact lexGt_irrefl _

lemma gtl_trans {a b c : List Int} (h1 : Version.gtl a b = true)
    (h2 : Version.gtl b c = true) : Version.gtl a c = true := by
  have ha : a.length ≤ max a.length (max b.length c.length) := by omega
  have hb : b.length ≤ max a.length (max b.length c.length) := by omega
  have hc : c.length ≤ max a.length (max b.length c.length) := by omega
  rw [gtl_padTo ha hc]
  rw [gtl_padTo ha hb] at h1
  rw [gtl_padTo hb hc] at h2
  exact lexGt_trans ((padTo_length ha).trans (padTo_length hb).symm)
    ((padTo_length hb).trans (padTo_length hc).symm) h1 h2

lemma gtl_asymm {a b : List Int} (h : Version.gtl a b = true) :
    Version.gtl b a = false := by
  cases hba : Version.gtl b a with
  | false => rfl
  | true =>
    have := gtl_trans h hba
    rw [gtl_irrefl] at this
    exact absurd this (by simp)

lemma gtl_negtrans {a b c : List Int} (h1 : Version.gtl a b = false)
    (h2 : Version.gtl b c = false) : Version.gtl a c = false := by
  have ha : a.length ≤ max a.length (max b.length c.length) := by omega
  have hb : b.length ≤ max a.length (max b.length c.length) := by omega
  have hc : c.length ≤ max a.length (max b.length c.length) := by omega
  have lab : (padTo a _).length = (padTo b _).length :=
    (padTo_length ha).trans (padTo_length hb).symm
  have lbc : (padTo b _).length = (padTo c _).length :=
    (padTo_length hb).trans (padTo_length hc).symm
  rw [gtl_padTo ha hc]
  rw [gtl_padTo ha hb] at h1
  rw [gtl_padTo hb hc] at h2
  cases hba : lexGt (padTo b (max a.length (max b.length c.length)))
      (padTo a (max a.length (max b.length c.length))) with
  | false =>
    rw [lexGt_both_false lab h1 hba]
    exact h2
  | true =>
    cases hac : lexGt (padTo a (max a.length (max b.length c.length)))
        (padTo c (max a.length (max b.length c.length))) with
    | false => rfl
    | true =>
      have := lexGt_trans lab.symm (lab.trans lbc) hba hac
      rw [this] at h2
      exact absurd h2 (by simp)

lemma eqPad_gtl_false {l m : List Int} (h : eqPad l m = true) :
    Version.gtl l m = false ∧ Version.gtl m l = false := by
  induction l generalizing m with
  | nil =>
    have hz : ∀ x ∈ m, x = 0 := allZero_iff.mp h
    constructor
    · show gtlFillLeft m = false
      exact gtlFillLeft_zeros hz
    · rw [gtl_nil_right]
      exact gtlFillRight_zeros hz
  | cons x xs ih =>
    cases m with
    | nil =>
      simp only [eqPad, Bool.and_eq_true, beq_iff_eq] at h
      have hz : ∀ z ∈ x :: xs, z = 0 := by
        intro z hm
        rcases List.mem_cons.mp hm with hz | hz
        · rw [hz]; exact h.1
        · exact (allZero_iff.mp h.2) z hz
      constructor
      · rw [gtl_nil_right]
        exact gtlFillRight_zeros hz
      · show gtlFillLeft (x :: xs) = false
        exact gtlFillLeft_zeros hz
    | cons y ys =>
      simp only [eqPad, Bool.and_eq_true, beq_iff_eq] at h
      obtain ⟨hxy, hrest⟩ := h
      have hih := ih hrest
      subst hxy
      simp [Version.gtl, hih.1, hih.2]

/-! ## String-rendering lemmas for Version.__str__ -/

lemma joinDot_append_singleton (xs : List String) (s : String) :
    joinDot (xs ++ [s]) = if xs.isEmpty then s else joinDot xs ++ "." ++ s := by
  induction xs with
  | nil => rfl
  | cons x rest ih =>
    cases rest with
    | nil => rfl
    | cons y r =>
      show joinDot (x :: ((y :: r) ++ [s])) = _
      rw [show joinDot (x :: ((y :: r) ++ [s])) =
            x ++ "." ++ joinDot ((y :: r) ++ [s]) from rfl]
      rw [ih]
      simp [joinDot, String.append_assoc]

lemma toString_intZero : toString (0 : Int) = "0" := rfl

lemma vstr_len_append_zero (l : List Int) :
    (joinDot ((l ++ [(0 : Int)]).map (fun i => toString i))).length =
      (joinDot (l.map (fun i => toString i))).length + (if l.isEmpty then 1 else 2) := by
  rw [List.map_append, List.map_cons, List.map_nil, joinDot_append_singleton]
  cases l with
  | nil => decide
  | cons x rest =>
    have h1 : ".".length = 1 := rfl
    have h2 : "0".length = 1 := rfl
    have h3 : (x :: rest).isEmpty = false := rfl
    have h4 : ((x :: rest).map (fun i => toString i)).isEmpty = false := rfl
    rw [h3, h4, if_neg (by simp), if_neg (by simp), toString_intZero,
      String.length_append, String.length_append, h1, h2]

lemma vstr_len_append_zeros (l : List Int) (k : Nat) (hk : 1 ≤ k) :
    (joinDot (l.map (fun i => toString i))).length <
      (joinDot ((l ++ List.replicate k (0 : Int)).map (fun i => toString i))).length := by
  induction k with
  | zero => omega
  | succ j ih =>
    cases Nat.eq_or_lt_of_le hk with
    | inl h1 =>
      have hj : j = 0 := by omega
      subst hj
      rw [show List.replicate 1 (0 : Int) = [0] from rfl]
      rw [vstr_len_append_zero l]
      split <;> omega
    | inr h2 =>
      have hj : 1 ≤ j := by omega
      have step := vstr_len_append_zero (l ++ List.replicate j (0 : Int))
      rw [show (l ++ List.replicate j (0 : Int)) ++ [(0 : Int)] =
            l ++ List.replicate (j + 1) (0 : Int) by
          rw [List.append_assoc, ← List.replicate_succ' j 0]] at step
      have := ih hj
      omega

/-! ## Parse-shape lemmas for Version.__init__ -/

lemma digitsVal_isSome (l : List Char) :
    (digitsVal l).isSome = (!l.isEmpty && l.all Char.isDigit) := by
  cases l with
  | nil => rfl
  | cons c cs =>
    show (if (c :: cs).all Char.isDigit then
            some ((c :: cs).foldl (fun a c => a * 10 + (c.toNat - 48)) 0)
          else none).isSome = _
    split <;> simp_all

lemma pyIntL_isSome (l : List Char) : (pyIntL l).isSome = isIntLitL l := by
  unfold pyIntL isIntLitL
  split
  · rename_i x rest
    have hd := digitsVal_isSome rest
    cases h : digitsVal rest <;> rw [h] at hd <;> simp [h, ← hd]
  · rename_i x rest
    have hd := digitsVal_isSome rest
    cases h : digitsVal rest <;> rw [h] at hd <;> simp [h, ← hd]
  · rename_i h1 h2
    have hd := digitsVal_isSome l
    cases h : digitsVal l <;> rw [h] at hd <;> simp [h, ← hd]

lemma mapOptionL_isSome {α β : Type} (f : α → Option β) (l : List α) :
    (mapOptionL f l).isSome = l.all (fun x => (f x).isSome) := by
  induction l with
  | nil => rfl
  | cons x xs ih =>
    cases hfx : f x with
    | none => simp [mapOptionL, hfx]
    | some y =>
      cases hxs : mapOptionL f xs with
      | none =>
        rw [hxs] at ih
        simp [mapOptionL, hfx, hxs, ← ih]
      | some ys =>
        rw [hxs] at ih
        simp [mapOptionL, hfx, hxs, ← ih]

/-- The membership test int() applies to one tuple element: ints pass,
strings pass iff they are integer literals, anything else raises. -/
def pyIntArgOk : PyTupElem → Bool
  | .int _ => true
  | .str s => isIntLitL s.data
  | .other => false

lemma pyIntOf_okB (e : PyTupElem) : okB (pyIntOf e) = pyIntArgOk e := by
  cases e with
  | int i => rfl
  | str s =>
    have hs := pyIntL_isSome s.data
    cases h : pyIntL s.data with
    | some i =>
      rw [h] at hs
      simp [pyIntOf, h, okB, pyIntArgOk, ← hs]
    | none =>
      rw [h] at hs
      simp [pyIntOf, h, okB, pyIntArgOk, ← hs]
  | other => rfl

lemma mapExceptL_okB {α β : Type} (f : α → Except String β) (l : List α) :
    okB (mapExceptL f l) = l.all (fun x => okB (f x)) := by
  induction l with
  | nil => rfl
  | cons x xs ih =>
    rw [List.all_cons]
    cases hfx : f x with
    | error e =>
      have hL : mapExceptL f (x :: xs) = .error e := by
        simp [mapExceptL, hfx]
      rw [hL]
      simp [hfx, okB]
    | ok y =>
      have hL : okB (mapExceptL f (x :: xs)) = okB (mapExceptL f xs) := by
        cases hxs : mapExceptL f xs <;> simp [mapExceptL, hfx, hxs, okB]
      rw [hL, ih]
      simp [hfx, okB]

/-! ## Dict membership lemmas -/

lemma mem_dictInsert {α : Type} {d : List (String × α)} {k : String} {v : α}
    {p : String × α} (h : p ∈ dictInsert d k v) : p = (k, v) ∨ p ∈ d := by
  induction d with
  | nil => simpa [dictInsert] using h
  | cons q rest ih =>
    rw [show dictInsert (q :: rest) k v =
          if q.1 = k then (k, v) :: rest else q :: dictInsert rest k v from rfl] at h
    split at h
    · rcases List.mem_cons.mp h with h1 | h1
      · exact Or.inl h1
      · exact Or.inr (List.mem_cons.mpr (Or.inr h1))
    · rcases List.mem_cons.mp h with h1 | h1
      · exact Or.inr (List.mem_cons.mpr (Or.inl h1))
      · rcases ih h1 with h2 | h2
        · exact Or.inl h2
        · exact Or.inr (List.mem_cons.mpr (Or.inr h2))

lemma mem_dictOf_aux {α : Type} {p : String × α} :
    ∀ (ps acc : List (String × α)), p ∈ ps.foldl (fun d q => dictInsert d q.1 q.2) acc →
      p ∈ acc ∨ p ∈ ps := by
  intro ps
  induction ps with
  | nil => intro acc h; exact Or.inl h
  | cons q rest ih =>
    intro acc h
    rcases ih (dictInsert acc q.1 q.2) h with h1 | h1
    · rcases mem_dictInsert h1 with h2 | h2
      · exact Or.inr (List.mem_cons.mpr (Or.inl h2))
      · exact Or.inl h2
    · exact Or.inr (List.mem_cons.mpr (Or.inr h1))

lemma mem_dictOf {α : Type} {ps : List (String × α)} {p : String × α}
    (h : p ∈ dictOf ps) : p ∈ ps := by
  rcases mem_dictOf_aux ps [] h with h1 | h1
  · simp at h1
  · exact h1

/-! ## Claims C1, C2, C3, C4, C5, C9 -/

lemma get_latest_version_not_version {s : GetVersionSpec} {v : PyVal}
    (h : get_latest_version s = .ok v) : v.isVersion = false := by
  unfold get_latest_version at h
  split_ifs at h <;> injection h with h2
  all_goals (subst h2; rfl)

lemma gatherVersions_not_version {specs : List ModuleSpec} {vs : List PyVal}
    (h : gatherVersions specs = .ok vs) : ∀ v ∈ vs, v.isVersion = false := by
  induction specs generalizing vs with
  | nil =>
    cases h
    simp
  | cons s rest ih =>
    unfold gatherVersions at h
    cases h1 : get_latest_version s.get_version with
    | error e =>
      rw [h1] at h
      exact absurd h (by simp)
    | ok v =>
      rw [h1] at h
      cases h2 : gatherVersions rest with
      | error e =>
        rw [h2] at h
        exact absurd h (by simp)
      | ok ws =>
        rw [h2] at h
        cases h
        intro x hx
        rcases List.mem_cons.mp hx with h3 | h3
        · rw [h3]
          exact get_latest_version_not_version h1
        · exact ih h2 x h3

/-- No value in an ok result of get_latest_versions is a Version: each one
is the resolver coroutine that get_latest_version returned without
awaiting. -/
lemma get_latest_versions_not_version {specs : List ModuleSpec}
    {out : List (String × PyVal)} (h : get_latest_versions specs = .ok out) :
    ∀ p ∈ out, p.2.isVersion = false := by
  unfold get_latest_versions at h
  cases h1 : gatherVersions specs with
  | error e =>
    rw [h1] at h
    exact absurd h (by simp)
  | ok vs =>
    rw [h1] at h
    cases h
    intro p hp
    obtain ⟨a, b⟩ := p
    have hzip := mem_dictOf hp
    exact gatherVersions_not_version h1 b (List.of_mem_zip hzip).2

/-- C1: get_latest_versions is claimed to map every component name to a
resolved Version.  In the code get_latest_version assigns the resolver
call without awaiting it (lines 144-149), so the mapping's values are
un-awaited coroutine objects, not Version instances: evaluating the
embedded code on a one-component spec list of each resolver type shows the
value is a coroutine, and an unknown type raises the configuration
error. -/
theorem claim_C1 :
    get_latest_versions [⟨"foo", "https://e/{version}.tar.gz", ⟨"scrape"⟩⟩] =
      .ok [("foo", PyVal.vCoroutine "get_version_scrape" "scrape")]
    ∧ get_latest_versions
        [⟨"a", "u", ⟨"github_branches"⟩⟩, ⟨"b", "u", ⟨"github_releases"⟩⟩] =
      .ok [("a", PyVal.vCoroutine "get_version_github_branches" "github_branches"),
           ("b", PyVal.vCoroutine "get_version_github_releases" "github_releases")]
    ∧ (PyVal.vCoroutine "get_version_scrape" "scrape").isVersion = false
    ∧ (∀ v : Version, (PyVal.vVersion v).isVersion = true)
    ∧ get_latest_versions [⟨"x", "u", ⟨"bogus"⟩⟩] = .error "Bad spec type: bogus" :=
  ⟨by decide, by decide, rfl, fun _ => rfl, by decide⟩

/-- C2, as stated, is false: Version.__eq__ compares canonical dotted
strings, so Version("1.2") and Version("1.2.0") are not equal. -/
theorem claim_C2_counterexample :
    Version.init (.str "1.2") = .ok ⟨[1, 2], none⟩
    ∧ Version.init (.str "1.2.0") = .ok ⟨[1, 2, 0], none⟩
    ∧ Version.eq ⟨[1, 2], none⟩ ⟨[1, 2, 0], none⟩ = false :=
  ⟨by decide, by decide, by decide⟩

/-- C2 amended: for Versions differing only by trailing zero components,
the ordering treats the missing components as zero (neither compares
greater), but equality compares canonical strings, so they are unequal
whenever the trailing zero part is nonempty — in particular
Version("1.2") != Version("1.2.0"). -/
theorem claim_C2 (a : Version) (zs : List Int) (hz : ∀ z ∈ zs, z = 0) :
    Version.gt a ⟨a.version_tuple ++ zs, a.date⟩ = false
    ∧ Version.gt ⟨a.version_tuple ++ zs, a.date⟩ a = false
    ∧ (zs ≠ [] →
        Version.eq a ⟨a.version_tuple ++ zs, a.date⟩ = false
        ∧ Version.eq ⟨a.version_tuple ++ zs, a.date⟩ a = false) := by
  have hrep : zs = List.replicate zs.length 0 := List.eq_replicate_of_mem hz
  refine ⟨?_, ?_, ?_⟩
  · show Version.gtl a.version_tuple (a.version_tuple ++ zs) = false
    rw [hrep, gtl_append_zeros_right, gtl_irrefl]
  · show Version.gtl (a.version_tuple ++ zs) a.version_tuple = false
    rw [hrep, gtl_append_zeros_left, gtl_irrefl]
  · intro hne
    have hk : 1 ≤ zs.length := by
      cases zs with
      | nil => exact absurd rfl hne
      | cons z r => simp
    have hlen := vstr_len_append_zeros a.version_tuple zs.length hk
    rw [← hrep] at hlen
    have hstr : Version.str a ≠ Version.str ⟨a.version_tuple ++ zs, a.date⟩ := by
      intro h
      have h2 : joinDot (List.map (fun i => toString i) a.version_tuple) =
          joinDot (List.map (fun i => toString i) (a.version_tuple ++ zs)) := h
      rw [h2] at hlen
      omega
    constructor
    · unfold Version.eq
      exact beq_eq_false_iff_ne.mpr hstr
    · unfold Version.eq
      exact beq_eq_false_iff_ne.mpr (fun hh => hstr hh.symm)

theorem claim_C2_witness :
    Version.eq ⟨[1, 2], none⟩ ⟨[1, 2, 0], none⟩ = false
    ∧ Version.gt ⟨[1, 2], none⟩ ⟨[1, 2, 0], none⟩ = false
    ∧ Version.gt ⟨[1, 2, 0], none⟩ ⟨[1, 2], none⟩ = false :=
  ⟨((claim_C2 ⟨[1, 2], none⟩ [0] (by decide)).2.2 (by decide)).1,
   (claim_C2 ⟨[1, 2], none⟩ [0] (by decide)).1,
   (claim_C2 ⟨[1, 2], none⟩ [0] (by decide)).2.1⟩

/-- C9: the derived < is not a strict order: for Versions with equal
zero-padded tuples but different canonical strings, a < b and b < a both
hold while a == b is false — no trichotomy. -/
theorem claim_C9 (a b : Version)
    (hpad : eqPad a.version_tuple b.version_tuple = true)
    (hstr : a.str ≠ b.str) :
    Version.lt a b = true ∧ Version.lt b a = true ∧ Version.eq a b = false := by
  have hg := eqPad_gtl_false hpad
  have he1 : Version.eq a b = false := by
    unfold Version.eq
    exact beq_eq_false_iff_ne.mpr hstr
  have he2 : Version.eq b a = false := by
    unfold Version.eq
    exact beq_eq_false_iff_ne.mpr (fun h => hstr h.symm)
  refine ⟨?_, ?_, he1⟩
  · simp [Version.lt, Version.gt, hg.1, he1]
  · simp [Version.lt, Version.gt, hg.2, he2]

theorem claim_C9_witness :
    eqPad [1, 2] [1, 2, 0] = true
    ∧ (Version.mk [1, 2] none).str ≠ (Version.mk [1, 2, 0] none).str
    ∧ (Version.lt ⟨[1, 2], none⟩ ⟨[1, 2, 0], none⟩ = true
       ∧ Version.lt ⟨[1, 2, 0], none⟩ ⟨[1, 2], none⟩ = true
       ∧ Version.eq ⟨[1, 2], none⟩ ⟨[1, 2, 0], none⟩ = false) :=
  ⟨by decide, by decide,
   claim_C9 ⟨[1, 2], none⟩ ⟨[1, 2, 0], none⟩ (by decide) (by decide)⟩

/-- C4: Version.__gt__ decides exactly the lexicographic comparison of the
two integer tuples zero-padded to a common length; in particular
Version("1.10") > Version("1.9") and Version("2") > Version("1.99.9"). -/
theorem claim_C4 :
    (∀ a b : Version,
      Version.gt a b =
        lexGt (padTo a.version_tuple (max a.version_tuple.length b.version_tuple.length))
              (padTo b.version_tuple (max a.version_tuple.length b.version_tuple.length)))
    ∧ Version.init (.str "1.10") = .ok ⟨[1, 10], none⟩
    ∧ Version.init (.str "1.9") = .ok ⟨[1, 9], none⟩
    ∧ Version.gt ⟨[1, 10], none⟩ ⟨[1, 9], none⟩ = true
    ∧ Version.init (.str "2") = .ok ⟨[2], none⟩
    ∧ Version.init (.str "1.99.9") = .ok ⟨[1, 99, 9], none⟩
    ∧ Version.gt ⟨[2], none⟩ ⟨[1, 99, 9], none⟩ = true :=
  ⟨fun a b => by
    unfold Version.gt
    exact gtl_padTo (Nat.le_max_left _ _) (Nat.le_max_right _ _),
   by decide, by decide, by decide, by decide, by decide, by decide⟩

/-- C5, as stated, is false: int() accepts signed literals, so
Version("1.-1") succeeds and carries the negative component -1. -/
theorem claim_C5_counterexample :
    Version.init (.str "1.-1") = .ok ⟨[1, -1], none⟩
    ∧ (Version.mk [1, -1] none).version_tuple.all (fun i => decide (0 ≤ i)) = false :=
  ⟨by decide, by decide⟩

/-- C5 amended: the Version constructor succeeds exactly on a string whose
dot-separated components are integer literals (optional sign, then
digits) or on a tuple whose elements are ints or such literal strings; it
fails on any other shape — in particular Version("1.a") and
Version("abc") fail — but components may be negative, as in
Version("1.-1"), so constructed Versions need not be non-negative. -/
theorem claim_C5 :
    (∀ s : String, okB (Version.init (.str s)) = (splitDot s.data).all isIntLitL)
    ∧ (∀ xs : List PyTupElem, okB (Version.init (.tup xs)) = xs.all pyIntArgOk)
    ∧ okB (Version.init .other) = false
    ∧ okB (Version.init (.str "1.a")) = false
    ∧ okB (Version.init (.str "abc")) = false
    ∧ Version.init (.str "1.-1") = .ok ⟨[1, -1], none⟩ := by
  refine ⟨?_, ?_, rfl, by decide, by decide, by decide⟩
  · intro s
    have hall : (splitDot s.data).all (fun x => (pyIntL x).isSome) =
        (splitDot s.data).all isIntLitL := by
      simp only [pyIntL_isSome]
    rw [← hall, ← mapOptionL_isSome]
    cases hm : mapOptionL pyIntL (splitDot s.data) with
    | none => simp [Version.init, hm, okB]
    | some ints => simp [Version.init, hm, okB]
  · intro xs
    have hall : xs.all (fun x => okB (pyIntOf x)) = xs.all pyIntArgOk := by
      simp only [pyIntOf_okB]
    rw [← hall, ← mapExceptL_okB]
    cases hm : mapExceptL pyIntOf xs with
    | error e => simp [Version.init, hm, okB]
    | ok ints => simp [Version.init, hm, okB]

lemma lookupA_append {α : Type} (d1 d2 : List (String × α)) (k : String) :
    lookupA (d1 ++ d2) k =
      match lookupA d1 k with
      | some v => some v
      | none => lookupA d2 k := by
  induction d1 with
  | nil => rfl
  | cons q rest ih =>
    obtain ⟨k0, v0⟩ := q
    by_cases h : k0 = k
    · simp [lookupA, h]
    · simp [lookupA, h, ih]

/-- C3, as stated, is false: the source builds jinja2.Template with the
default lenient undefined, so a template referencing a variable absent
from the environment renders silently, the reference becoming the empty
string, instead of failing; the strict renderer the spec describes would
have raised. -/
theorem claim_C3_counterexample :
    render_templates [] [⟨"manifest.yaml", [TplNode.varRef "foo_sha256"]⟩] =
      [("manifest.yaml", "")]
    ∧ okB (renderStrict [] [TplNode.varRef "foo_sha256"]) = false :=
  ⟨by decide, by decide⟩

/-- C3 amended: render_templates never raises an undefined-variable
error: with jinja2's default undefined, a variable absent from the
environment renders as the empty string — rendering is unchanged by
binding the missing variable to "" — and every template file still
produces its output. -/
theorem claim_C3 :
    (∀ (env : List (String × PyVal)) (t : List TplNode) (x : String),
      lookupA env x = none →
      renderDefault env t = renderDefault (env ++ [(x, PyVal.vStr "")]) t)
    ∧ (∀ (env : List (String × PyVal)) (files : List TemplateFile),
        (render_templates env files).map Prod.fst = files.map TemplateFile.stem) := by
  constructor
  · intro env t x hx
    unfold renderDefault
    have hf : (fun n : TplNode =>
        match n with
        | .lit s => s
        | .varRef y =>
          match lookupA env y with
          | some v => pyStr v
          | none => "") =
        (fun n : TplNode =>
        match n with
        | .lit s => s
        | .varRef y =>
          match lookupA (env ++ [(x, PyVal.vStr "")]) y with
          | some v => pyStr v
          | none => "") := by
      funext n
      cases n with
      | lit s => rfl
      | varRef y =>
        show (match lookupA env y with
              | some v => pyStr v
              | none => "") =
             (match lookupA (env ++ [(x, PyVal.vStr "")]) y with
              | some v => pyStr v
              | none => "")
        rw [lookupA_append]
        cases h : lookupA env y with
        | some v => rfl
        | none =>
          by_cases hxy : x = y
          · simp [lookupA, hxy, pyStr]
          · simp [lookupA, hxy]
    rw [hf]
  · intro env files
    simp [render_templates]

theorem claim_C3_witness :
    lookupA ([] : List (String × PyVal)) "foo_sha256" = none
    ∧ renderDefault [] [TplNode.varRef "foo_sha256"] =
        renderDefault ([] ++ [("foo_sha256", PyVal.vStr "")]) [TplNode.varRef "foo_sha256"] :=
  ⟨rfl, claim_C3.1 [] [TplNode.varRef "foo_sha256"] "foo_sha256" rfl⟩

/-! ## Claim C6: the releases/tags resolver -/

lemma parseEntries_det (subs : List (String × String)) (data : List RelItem) :
    ∀ p ∈ parseEntries subs data,
      Version.init (.str (applySubs subs p.2.name)) = .ok p.1 := by
  intro p hp
  unfold parseEntries at hp
  rw [List.mem_filterMap] at hp
  obtain ⟨item, hitem, hmap⟩ := hp
  cases hv : Version.init (.str (applySubs subs item.name)) with
  | error e =>
    rw [hv] at hmap
    exact absurd hmap (by simp)
  | ok v =>
    rw [hv] at hmap
    injection hmap with h2
    subst h2
    exact hv

lemma pyMaxFold_spec (subs : List (String × String)) :
    ∀ (l : List (Version × RelItem)) (b r : Version × RelItem),
      (∀ p ∈ b :: l, Version.init (.str (applySubs subs p.2.name)) = .ok p.1) →
      pyMaxFold l b = .ok r →
      (r = b ∨ r ∈ l) ∧ Version.gt b.1 r.1 = false ∧
        (∀ p ∈ l, Version.gt p.1 r.1 = false) := by
  intro l
  induction l with
  | nil =>
    intro b r hdet h
    injection h with h2
    subst h2
    exact ⟨Or.inl rfl, gtl_irrefl _, by simp⟩
  | cons x xs ih =>
    intro b r hdet h
    rw [show pyMaxFold (x :: xs) b =
          (match pairGt x b with
           | .error e => .error e
           | .ok g => pyMaxFold xs (if g then x else b)) from rfl] at h
    cases hpg : pairGt x b with
    | error e =>
      rw [hpg] at h
      exact absurd h (by simp)
    | ok g =>
      rw [hpg] at h
      cases g with
      | true =>
        have h2 : pyMaxFold xs x = Except.ok r := h
        have hdet2 : ∀ p ∈ x :: xs,
            Version.init (.str (applySubs subs p.2.name)) = .ok p.1 := by
          intro p hp
          exact hdet p (List.mem_cons_of_mem b hp)
        have hs := ih x r hdet2 h2
        have hgt : Version.gt x.1 b.1 = true := by
          unfold pairGt at hpg
          by_cases he : Version.eq x.1 b.1
          · rw [if_pos he] at hpg
            by_cases hi : x.2 = b.2
            · rw [if_pos hi] at hpg
              exact absurd hpg (by simp)
            · rw [if_neg hi] at hpg
              exact absurd hpg (by simp)
          · rw [if_neg he] at hpg
            injection hpg
        refine ⟨?_, ?_, ?_⟩
        · refine Or.inr ?_
          rcases hs.1 with h1 | h1
          · rw [h1]
            exact List.mem_cons_self _ _
          · exact List.mem_cons_of_mem x h1
        · cases hbr : Version.gt b.1 r.1 with
          | false => rfl
          | true =>
            have h3 : Version.gt x.1 r.1 = true := gtl_trans hgt hbr
            rw [hs.2.1] at h3
            exact absurd h3 (by simp)
        · intro p hp
          rcases List.mem_cons.mp hp with h1 | h1
          · rw [h1]
            exact hs.2.1
          · exact hs.2.2 p h1
      | false =>
        have h2 : pyMaxFold xs b = Except.ok r := h
        have hdet2 : ∀ p ∈ b :: xs,
            Version.init (.str (applySubs subs p.2.name)) = .ok p.1 := by
          intro p hp
          rcases List.mem_cons.mp hp with h1 | h1
          · rw [h1]
            exact hdet b (List.mem_cons_self _ _)
          · exact hdet p (List.mem_cons_of_mem b (List.mem_cons_of_mem x h1))
        have hs := ih b r hdet2 h2
        have hxr : Version.gt x.1 r.1 = false := by
          unfold pairGt at hpg
          by_cases he : Version.eq x.1 b.1
          · rw [if_pos he] at hpg
            by_cases hi : x.2 = b.2
            · have hx := hdet x (List.mem_cons_of_mem b (List.mem_cons_self _ _))
              have hb := hdet b (List.mem_cons_self _ _)
              rw [hi] at hx
              rw [hb] at hx
              injection hx with h4
              rw [show x.1 = b.1 from h4.symm]
              exact hs.2.1
            · rw [if_neg hi] at hpg
              exact absurd hpg (by simp)
          · rw [if_neg he] at hpg
            injection hpg with hg
            exact gtl_negtrans hg hs.2.1
        refine ⟨?_, hs.2.1, ?_⟩
        · rcases hs.1 with h1 | h1
          · exact Or.inl h1
          · exact Or.inr (List.mem_cons_of_mem x h1)
        · intro p hp
          rcases List.mem_cons.mp hp with h1 | h1
          · rw [h1]
            exact hxr
          · exact hs.2.2 p h1

/-- C6: in the releases/tags resolver, entry names failing to parse as a
Version after substitutions are skipped without aborting (they never
enter the parsed list), and a successful lookup returns a parsed entry no
other parsed entry compares greater than; on the names
["v1", "nightly", "v2"] with substitution ("v",""), "nightly" is skipped
and the result is version 2. -/
theorem claim_C6 :
    (∀ (subs : List (String × String)) (data : List RelItem)
        (v : Version) (it : RelItem),
      get_version_github_releases subs data = .ok (v, it) →
      (v, it) ∈ parseEntries subs data
      ∧ ∀ p ∈ parseEntries subs data, Version.gt p.1 v = false)
    ∧ parseEntries [("v", "")] [⟨"v1", 0⟩, ⟨"nightly", 1⟩, ⟨"v2", 2⟩] =
        [(⟨[1], none⟩, ⟨"v1", 0⟩), (⟨[2], none⟩, ⟨"v2", 2⟩)]
    ∧ get_version_github_releases [("v", "")] [⟨"v1", 0⟩, ⟨"nightly", 1⟩, ⟨"v2", 2⟩] =
        .ok (⟨[2], none⟩, ⟨"v2", 2⟩) := by
  refine ⟨?_, by decide, by decide⟩
  intro subs data v it h
  unfold get_version_github_releases at h
  cases hpe : parseEntries subs data with
  | nil =>
    rw [hpe] at h
    exact absurd h (by simp [pyMax])
  | cons x xs =>
    rw [hpe] at h
    have hdet : ∀ p ∈ x :: xs,
        Version.init (.str (applySubs subs p.2.name)) = .ok p.1 := by
      intro p hp
      apply parseEntries_det subs data
      rw [hpe]
      exact hp
    have hspec := pyMaxFold_spec subs xs x (v, it) hdet h
    constructor
    · rcases hspec.1 with h1 | h1
      · rw [h1]
        exact List.mem_cons_self _ _
      · exact List.mem_cons_of_mem x h1
    · intro p hp
      rcases List.mem_cons.mp hp with h1 | h1
      · rw [h1]
        exact hspec.2.1
      · exact hspec.2.2 p h1

theorem claim_C6_witness :
    ((⟨[2], none⟩ : Version), (⟨"v2", 2⟩ : RelItem)) ∈
        parseEntries [("v", "")] [⟨"v1", 0⟩, ⟨"nightly", 1⟩, ⟨"v2", 2⟩]
    ∧ ∀ p ∈ parseEntries [("v", "")] [⟨"v1", 0⟩, ⟨"nightly", 1⟩, ⟨"v2", 2⟩],
        Version.gt p.1 ⟨[2], none⟩ = false :=
  claim_C6.1 [("v", "")] [⟨"v1", 0⟩, ⟨"nightly", 1⟩, ⟨"v2", 2⟩]
    ⟨[2], none⟩ ⟨"v2", 2⟩ (by decide)

/-! ## Claim C8: the checksum fetcher -/

lemma foldl_append_acc {α : Type} (l : List (List α)) (a : List α) :
    l.foldl (fun x y => x ++ y) a = a ++ l.foldl (fun x y => x ++ y) [] := by
  induction l generalizing a with
  | nil => simp
  | cons c cs ih =>
    show cs.foldl (fun x y => x ++ y) (a ++ c) = _
    rw [ih (a ++ c)]
    show a ++ c ++ _ = a ++ cs.foldl (fun x y => x ++ y) ([] ++ c)
    rw [List.nil_append, ih c, List.append_assoc]

lemma chunksOf_join_aux (n : Nat) (hn : n ≠ 0) :
    ∀ (fuel : Nat) (bs : List Nat), bs.length ≤ fuel →
      (chunksOf n bs).foldl (fun x y => x ++ y) [] = bs := by
  intro fuel
  induction fuel with
  | zero =>
    intro bs hb
    have : bs = [] := List.length_eq_zero.mp (Nat.le_zero.mp hb)
    subst this
    rw [chunksOf]
    simp
  | succ f ih =>
    intro bs hb
    rw [chunksOf]
    by_cases hcase : bs = [] ∨ n = 0
    · rw [if_pos hcase]
      rcases hcase with hc | hc
      · rw [hc]; rfl
      · exact absurd hc hn
    · rw [if_neg hcase]
      push_neg at hcase
      have hpos : 0 < bs.length := List.length_pos.mpr hcase.1
      have hdrop : (bs.drop n).length ≤ f := by
        rw [List.length_drop]
        omega
      have hstep : (bs.take n :: chunksOf n (bs.drop n)).foldl (fun x y => x ++ y) [] =
          bs.take n ++ (chunksOf n (bs.drop n)).foldl (fun x y => x ++ y) [] := by
        show (chunksOf n (bs.drop n)).foldl (fun x y => x ++ y) ([] ++ bs.take n) = _
        rw [List.nil_append]
        exact foldl_append_acc _ _
      rw [hstep, ih (bs.drop n) hdrop, List.take_append_drop]

lemma hashChunksHex_eq (bs : List Nat) :
    hashChunksHex (chunksOf 65536 bs) = sha256hex bs := by
  unfold hashChunksHex
  rw [chunksOf_join_aux 65536 (by norm_num) bs.length bs (Nat.le_refl _)]

lemma lookupA_dictInsert_self {α : Type} (d : List (String × α)) (k : String) (v : α) :
    lookupA (dictInsert d k v) k = some v := by
  induction d with
  | nil => simp [dictInsert, lookupA]
  | cons q rest ih =>
    obtain ⟨k0, v0⟩ := q
    by_cases h : k0 = k
    · simp [dictInsert, h, lookupA]
    · simp [dictInsert, h, lookupA, ih]

lemma lookupA_dictInsert_ne {α : Type} (d : List (String × α)) (k : String) (v : α)
    (k' : String) (h : k' ≠ k) :
    lookupA (dictInsert d k v) k' = lookupA d k' := by
  have hne : ¬ k = k' := fun hh => h hh.symm
  induction d with
  | nil =>
    show (if k = k' then some v else lookupA [] k') = none
    rw [if_neg hne]
    rfl
  | cons q rest ih =>
    obtain ⟨k0, v0⟩ := q
    by_cases h0 : k0 = k
    · subst h0
      have hd : dictInsert ((k0, v0) :: rest) k0 v = (k0, v) :: rest := by
        simp [dictInsert]
      rw [hd]
      simp [lookupA, hne]
    · have hd : dictInsert ((k0, v0) :: rest) k v = (k0, v0) :: dictInsert rest k v := by
        simp [dictInsert, h0]
      rw [hd]
      by_cases h1 : k0 = k'
      · simp [lookupA, h1]
      · simp [lookupA, h1, ih]

/-- C8: get_sha256 downloads exactly when no file with the URL's basename
exists in the download directory; a cached file leaves the filesystem
unchanged and is hashed as-is; and in every case the returned value is
the hex SHA-256 digest of the cached file's bytes, the chunked reading
loop reassembling exactly those bytes. -/
theorem claim_C8 (net : String → List Nat) (st : FsState) (dir url : String) :
    (get_sha256 net st dir url).downloaded =
      (lookupA st.files (dir ++ "/" ++ basename url)).isNone
    ∧ (∀ bs, lookupA st.files (dir ++ "/" ++ basename url) = some bs →
        (get_sha256 net st dir url).state = st
        ∧ (get_sha256 net st dir url).digest = sha256hex bs)
    ∧ (∃ bs, lookupA (get_sha256 net st dir url).state.files
          (dir ++ "/" ++ basename url) = some bs
        ∧ (get_sha256 net st dir url).digest = sha256hex bs) := by
  cases hl : lookupA st.files (dir ++ "/" ++ basename url) with
  | some bytes =>
    have hrun : get_sha256 net st dir url =
        ⟨hashChunksHex (chunksOf 65536 bytes), st, false⟩ := by
      simp only [get_sha256]
      rw [hl]
    rw [hrun]
    refine ⟨rfl, ?_, ?_⟩
    · intro bs hbs
      injection hbs with h2
      subst h2
      exact ⟨rfl, hashChunksHex_eq _⟩
    · exact ⟨bytes, hl, hashChunksHex_eq _⟩
  | none =>
    have hrun : get_sha256 net st dir url =
        ⟨hashChunksHex (chunksOf 65536 (net url)),
         ⟨dictInsert st.files (dir ++ "/" ++ basename url) (net url)⟩, true⟩ := by
      simp only [get_sha256]
      rw [hl]
    rw [hrun]
    refine ⟨rfl, ?_, ?_⟩
    · intro bs hbs
      exact absurd hbs (by simp)
    · exact ⟨net url, lookupA_dictInsert_self _ _ _, hashChunksHex_eq _⟩

theorem claim_C8_witness :
    lookupA (FsState.mk [(".cache/f.tar.gz", [1, 2])]).files
        (".cache" ++ "/" ++ basename "https://h/f.tar.gz") = some [1, 2]
    ∧ (get_sha256 (fun _ => []) ⟨[(".cache/f.tar.gz", [1, 2])]⟩
        ".cache" "https://h/f.tar.gz").state = ⟨[(".cache/f.tar.gz", [1, 2])]⟩
    ∧ (get_sha256 (fun _ => []) ⟨[(".cache/f.tar.gz", [1, 2])]⟩
        ".cache" "https://h/f.tar.gz").digest = sha256hex [1, 2] :=
  ⟨by decide,
   ((claim_C8 (fun _ => []) ⟨[(".cache/f.tar.gz", [1, 2])]⟩
      ".cache" "https://h/f.tar.gz").2.1 [1, 2] (by decide)).1,
   ((claim_C8 (fun _ => []) ⟨[(".cache/f.tar.gz", [1, 2])]⟩
      ".cache" "https://h/f.tar.gz").2.1 [1, 2] (by decide)).2⟩

/-! ## Claim C10: a run without --template-dir cannot complete -/

lemma parse_args_template_dir {cmd : CmdLine} {a : Args}
    (h : parse_args cmd = .ok a) : a.template_dir = cmd.template_dir := by
  unfold parse_args at h
  cases hc : cmd.config with
  | none =>
    rw [hc] at h
    exact absurd h (by simp)
  | some c =>
    cases hm : cmd.manifest with
    | none =>
      rw [hc, hm] at h
      exact absurd h (by simp)
    | some m =>
      rw [hc, hm] at h
      injection h with h2
      subst h2
      rfl

/-- C10: the argument parser accepts an invocation without --template-dir
(the flag is optional, defaulting to None), yet no such run can complete:
main either fails in an earlier stage or, reaching the end, applies
Path(None), which raises — so mainEntry never returns ok when
template_dir is absent. -/
theorem claim_C10 (cmd : CmdLine) (loadCfg : String → Config)
    (loadMan : String → Manifest) (net : String → List Nat) (st : FsState)
    (tplFiles : String → List TemplateFile)
    (h : cmd.template_dir = none) :
    okB (mainEntry cmd loadCfg loadMan net st tplFiles) = false
    ∧ (∀ c m td, parse_args ⟨some c, some m, td⟩ = .ok ⟨c, m, td⟩) := by
  refine ⟨?_, fun c m td => rfl⟩
  unfold mainEntry
  cases h1 : parse_args cmd with
  | error e => rfl
  | ok args =>
    have htd : args.template_dir = none := by
      rw [parse_args_template_dir h1, h]
    show okB
        (match get_latest_versions ((loadCfg args.config).runtime ::
            (loadCfg args.config).modules) with
         | .error e => .error e
         | .ok new_versions =>
           match get_current_versions (loadMan args.manifest) with
           | .error e => .error e
           | .ok current_versions =>
             match get_template_vars net st (loadCfg args.config)
                 current_versions new_versions (loadMan args.manifest) with
             | .error e => .error e
             | .ok (env, _) =>
               match pyPath args.template_dir with
               | .error e => .error e
               | .ok td => .ok (render_templates env (tplFiles td))) = false
    cases h2 : get_latest_versions ((loadCfg args.config).runtime ::
        (loadCfg args.config).modules) with
    | error e => rfl
    | ok new_versions =>
      show okB
          (match get_current_versions (loadMan args.manifest) with
           | .error e => .error e
           | .ok current_versions =>
             match get_template_vars net st (loadCfg args.config)
                 current_versions new_versions (loadMan args.manifest) with
             | .error e => .error e
             | .ok (env, _) =>
               match pyPath args.template_dir with
               | .error e => .error e
               | .ok td => .ok (render_templates env (tplFiles td))) = false
      cases h3 : get_current_versions (loadMan args.manifest) with
      | error e => rfl
      | ok current_versions =>
        show okB
            (match get_template_vars net st (loadCfg args.config)
                current_versions new_versions (loadMan args.manifest) with
             | .error e => .error e
             | .ok (env, _) =>
               match pyPath args.template_dir with
               | .error e => .error e
               | .ok td => .ok (render_templates env (tplFiles td))) = false
        cases h4 : get_template_vars net st (loadCfg args.config)
            current_versions new_versions (loadMan args.manifest) with
        | error e => rfl
        | ok pr =>
          obtain ⟨env, st2⟩ := pr
          rw [htd]
          rfl

theorem claim_C10_witness :
    okB (mainEntry ⟨some "config.yaml", some "manifest.yaml", none⟩
      (fun _ => ⟨⟨"runtime", "", ⟨"scrape"⟩⟩, []⟩)
      (fun _ => ⟨"1", []⟩) (fun _ => []) ⟨[]⟩ (fun _ => [])) = false :=
  (claim_C10 ⟨some "config.yaml", some "manifest.yaml", none⟩
    (fun _ => ⟨⟨"runtime", "", ⟨"scrape"⟩⟩, []⟩)
    (fun _ => ⟨"1", []⟩) (fun _ => []) ⟨[]⟩ (fun _ => []) rfl).1

/-! ## Claim C7: the template variable builder

The env keys written for a module named n are n_version, n_source_url,
n_version_date and n_sha256 (plus the initial runtime_version).  The four
suffixes end in distinct characters, so keys of different suffixes can
never collide, and same-suffix keys collide only for equal names. -/

lemma suffix_key_inj {a b suf : String} (h : a ++ suf = b ++ suf) : a = b := by
  have hd : a.data ++ suf.data = b.data ++ suf.data := by
    rw [← String.data_append, ← String.data_append, h]
  exact String.ext (List.append_cancel_right hd)

lemma append_key_ne {a b s t : String} (hs : s.data ≠ []) (ht : t.data ≠ [])
    (hlast : s.data.getLast? ≠ t.data.getLast?) : a ++ s ≠ b ++ t := by
  intro h
  apply hlast
  have hd : a.data ++ s.data = b.data ++ t.data := by
    rw [← String.data_append, ← String.data_append, h]
  rw [← List.getLast?_append_of_ne_nil a.data hs, hd,
    List.getLast?_append_of_ne_nil b.data ht]

lemma sha_ne_version_key (a b : String) : a ++ "_sha256" ≠ b ++ "_version" :=
  append_key_ne (by decide) (by decide) (by decide)

lemma sha_ne_source_url_key (a b : String) : a ++ "_sha256" ≠ b ++ "_source_url" :=
  append_key_ne (by decide) (by decide) (by decide)

lemma sha_ne_version_date_key (a b : String) : a ++ "_sha256" ≠ b ++ "_version_date" :=
  append_key_ne (by decide) (by decide) (by decide)

lemma sha_key_inj {a b : String} (h : a ++ "_sha256" = b ++ "_sha256") : a = b :=
  suffix_key_inj h

lemma lookupA_eq_none_iff {α : Type} {d : List (String × α)} {n : String} :
    lookupA d n = none ↔ ∀ v, (n, v) ∉ d := by
  induction d with
  | nil => simp [lookupA]
  | cons q rest ih =>
    obtain ⟨k0, v0⟩ := q
    by_cases h : k0 = n
    · subst h
      constructor
      · intro hh
        rw [show lookupA ((k0, v0) :: rest) k0 = some v0 from by simp [lookupA]] at hh
        exact absurd hh (by simp)
      · intro hh
        exact absurd (List.mem_cons_self (k0, v0) rest) (hh v0)
    · simp only [lookupA, if_neg h, ih, List.mem_cons]
      constructor
      · intro hh v hv
        rcases hv with hv | hv
        · exact h (congrArg Prod.fst hv).symm
        · exact hh v hv
      · intro hh v hv
        exact hh v (Or.inr hv)

lemma manifestShaLoop_preserve {name : String} :
    ∀ {mods : List ManifestModule} {env env' : List (String × PyVal)},
      manifestShaLoop name mods env = .ok env' →
      ∀ k, k ≠ name ++ "_sha256" → lookupA env' k = lookupA env k := by
  intro mods
  induction mods with
  | nil =>
    intro env env' h k hk
    injection h with h2
    subst h2
    rfl
  | cons m rest ih =>
    intro env env' h k hk
    unfold manifestShaLoop at h
    by_cases hm : m.name = name
    · rw [if_pos hm] at h
      cases hs : headE m.sources with
      | error e =>
        rw [hs] at h
        exact absurd h (by simp)
      | ok src =>
        rw [hs] at h
        rw [ih h k hk, lookupA_dictInsert_ne _ _ _ _ hk]
    · rw [if_neg hm] at h
      exact ih h k hk

lemma manifestShaLoop_filter_nil {name : String} :
    ∀ {mods : List ManifestModule} (env : List (String × PyVal)),
      mods.filter (fun m => m.name == name) = [] →
      manifestShaLoop name mods env = .ok env := by
  intro mods
  induction mods with
  | nil => intro env _; rfl
  | cons m rest ih =>
    intro env hf
    rw [List.filter_cons] at hf
    by_cases hm : m.name = name
    · rw [if_pos (by simp [hm])] at hf
      exact absurd hf (by simp)
    · rw [if_neg (by simp [hm])] at hf
      unfold manifestShaLoop
      rw [if_neg hm]
      exact ih env hf

lemma manifestShaLoop_unique {name : String} {mm : ManifestModule}
    {src : SrcEntry} {srest : List SrcEntry} (hsrc : mm.sources = src :: srest) :
    ∀ {mods : List ManifestModule} (env : List (String × PyVal)),
      mods.filter (fun m => m.name == name) = [mm] →
      ∃ env', manifestShaLoop name mods env = .ok env'
        ∧ lookupA env' (name ++ "_sha256") = some (.vStr src.sha256) := by
  intro mods
  induction mods with
  | nil =>
    intro env hf
    exact absurd hf (by simp)
  | cons m rest ih =>
    intro env hf
    rw [List.filter_cons] at hf
    by_cases hm : m.name = name
    · rw [if_pos (by simp [hm])] at hf
      injection hf with hf1 hf2
      subst hf1
      refine ⟨dictInsert env (name ++ "_sha256") (.vStr src.sha256), ?_, ?_⟩
      · unfold manifestShaLoop
        rw [if_pos hm, hsrc]
        show manifestShaLoop name rest
          (dictInsert env (name ++ "_sha256") (.vStr src.sha256)) = _
        exact manifestShaLoop_filter_nil _ hf2
      · exact lookupA_dictInsert_self _ _ _
    · rw [if_neg (by simp [hm])] at hf
      obtain ⟨env', h1, h2⟩ := ih env hf
      refine ⟨env', ?_, h2⟩
      unfold manifestShaLoop
      rw [if_neg hm]
      exact h1

lemma tvLoop_cons_ok {cur : List (String × Version)} {new : List (String × PyVal)}
    {man : Manifest} {spec : ModuleSpec} {rest : List ModuleSpec}
    {env : List (String × PyVal)} {rem : List (String × String)}
    {out : List (String × PyVal) × List (String × String)}
    (h : tvLoop cur new man (spec :: rest) env rem = .ok out) :
    ∃ nv d cv g,
      keyE new spec.name = .ok nv ∧ pyDate nv = .ok d ∧
      keyE cur spec.name = .ok cv ∧ pyGtVersion nv cv = .ok g ∧
      ((g = true ∧
        tvLoop cur new man rest
          (dictInsert (dictInsert (dictInsert env (spec.name ++ "_version") nv)
            (spec.name ++ "_source_url")
            (.vStr (pyFormat spec.source_url (pyStr nv))))
            (spec.name ++ "_version_date") d)
          (dictInsert rem spec.name (pyFormat spec.source_url (pyStr nv))) = .ok out)
       ∨ (g = false ∧ ∃ env4,
            manifestShaLoop spec.name man.modules
              (dictInsert (dictInsert (dictInsert env (spec.name ++ "_version") nv)
                (spec.name ++ "_source_url")
                (.vStr (pyFormat spec.source_url (pyStr nv))))
                (spec.name ++ "_version_date") d) = .ok env4
            ∧ tvLoop cur new man rest env4 rem = .ok out)) := by
  unfold tvLoop at h
  cases hknv : keyE new spec.name with
  | error e =>
    rw [hknv] at h
    exact absurd h (by simp)
  | ok nv =>
    rw [hknv] at h
    have h1 : (match pyDate nv with
      | Except.error e => Except.error e
      | Except.ok d =>
        match keyE cur spec.name with
        | Except.error e => Except.error e
        | Except.ok cv =>
          match pyGtVersion nv cv with
          | Except.error e => Except.error e
          | Except.ok g =>
            if g then
              tvLoop cur new man rest
                (dictInsert (dictInsert (dictInsert env (spec.name ++ "_version") nv)
                  (spec.name ++ "_source_url")
                  (.vStr (pyFormat spec.source_url (pyStr nv))))
                  (spec.name ++ "_version_date") d)
                (dictInsert rem spec.name (pyFormat spec.source_url (pyStr nv)))
            else
              match manifestShaLoop spec.name man.modules
                  (dictInsert (dictInsert (dictInsert env (spec.name ++ "_version") nv)
                    (spec.name ++ "_source_url")
                    (.vStr (pyFormat spec.source_url (pyStr nv))))
                    (spec.name ++ "_version_date") d) with
              | Except.error e => Except.error e
              | Except.ok env4 => tvLoop cur new man rest env4 rem) = .ok out := h
    cases hpd : pyDate nv with
    | error e =>
      rw [hpd] at h1
      exact absurd h1 (by simp)
    | ok d =>
      rw [hpd] at h1
      have h2 : (match keyE cur spec.name with
        | Except.error e => Except.error e
        | Except.ok cv =>
          match pyGtVersion nv cv with
          | Except.error e => Except.error e
          | Except.ok g =>
            if g then
              tvLoop cur new man rest
                (dictInsert (dictInsert (dictInsert env (spec.name ++ "_version") nv)
                  (spec.name ++ "_source_url")
                  (.vStr (pyFormat spec.source_url (pyStr nv))))
                  (spec.name ++ "_version_date") d)
                (dictInsert rem spec.name (pyFormat spec.source_url (pyStr nv)))
            else
              match manifestShaLoop spec.name man.modules
                  (dictInsert (dictInsert (dictInsert env (spec.name ++ "_version") nv)
                    (spec.name ++ "_source_url")
                    (.vStr (pyFormat spec.source_url (pyStr nv))))
                    (spec.name ++ "_version_date") d) with
              | Except.error e => Except.error e
              | Except.ok env4 => tvLoop cur new man rest env4 rem) = .ok out := h1
      cases hkcv : keyE cur spec.name with
      | error e =>
        rw [hkcv] at h2
        exact absurd h2 (by simp)
      | ok cv =>
        rw [hkcv] at h2
        have h3 : (match pyGtVersion nv cv with
          | Except.error e => Except.error e
          | Except.ok g =>
            if g then
              tvLoop cur new man rest
                (dictInsert (dictInsert (dictInsert env (spec.name ++ "_version") nv)
                  (spec.name ++ "_source_url")
                  (.vStr (pyFormat spec.source_url (pyStr nv))))
                  (spec.name ++ "_version_date") d)
                (dictInsert rem spec.name (pyFormat spec.source_url (pyStr nv)))
            else
              match manifestShaLoop spec.name man.modules
                  (dictInsert (dictInsert (dictInsert env (spec.name ++ "_version") nv)
                    (spec.name ++ "_source_url")
                    (.vStr (pyFormat spec.source_url (pyStr nv))))
                    (spec.name ++ "_version_date") d) with
              | Except.error e => Except.error e
              | Except.ok env4 => tvLoop cur new man rest env4 rem) = .ok out := h2
        cases hpg : pyGtVersion nv cv with
        | error e =>
          rw [hpg] at h3
          exact absurd h3 (by simp)
        | ok g =>
          rw [hpg] at h3
          cases g with
          | true =>
            have h4 : tvLoop cur new man rest
                (dictInsert (dictInsert (dictInsert env (spec.name ++ "_version") nv)
                  (spec.name ++ "_source_url")
                  (.vStr (pyFormat spec.source_url (pyStr nv))))
                  (spec.name ++ "_version_date") d)
                (dictInsert rem spec.name (pyFormat spec.source_url (pyStr nv))) = .ok out := h3
            exact ⟨nv, d, cv, true, rfl, hpd, rfl, hpg, Or.inl ⟨rfl, h4⟩⟩
          | false =>
            have h4 : (match manifestShaLoop spec.name man.modules
                (dictInsert (dictInsert (dictInsert env (spec.name ++ "_version") nv)
                  (spec.name ++ "_source_url")
                  (.vStr (pyFormat spec.source_url (pyStr nv))))
                  (spec.name ++ "_version_date") d) with
              | Except.error e => Except.error e
              | Except.ok env4 => tvLoop cur new man rest env4 rem) = .ok out := h3
            cases hms : manifestShaLoop spec.name man.modules
                (dictInsert (dictInsert (dictInsert env (spec.name ++ "_version") nv)
                  (spec.name ++ "_source_url")
                  (.vStr (pyFormat spec.source_url (pyStr nv))))
                  (spec.name ++ "_version_date") d) with
            | error e =>
              rw [hms] at h4
              exact absurd h4 (by simp)
            | ok env4 =>
              rw [hms] at h4
              exact ⟨nv, d, cv, false, rfl, hpd, rfl, hpg,
                Or.inr ⟨rfl, env4, hms, h4⟩⟩

lemma tvLoop_env_preserved {cur : List (String × Version)} {new : List (String × PyVal)}
    {man : Manifest} :
    ∀ {mods : List ModuleSpec} {env : List (String × PyVal)}
      {rem : List (String × String)} {env' : List (String × PyVal)}
      {rem' : List (String × String)},
      tvLoop cur new man mods env rem = .ok (env', rem') →
      ∀ k, (∀ m ∈ mods, k ≠ m.name ++ "_version" ∧ k ≠ m.name ++ "_source_url"
            ∧ k ≠ m.name ++ "_version_date" ∧ k ≠ m.name ++ "_sha256") →
      lookupA env' k = lookupA env k := by
  intro mods
  induction mods with
  | nil =>
    intro env rem env' rem' h k hk
    injection h with h2
    injection h2 with ha hb
    subst ha
    rfl
  | cons spec rest ih =>
    intro env rem env' rem' h k hk
    obtain ⟨nv, d, cv, g, hknv, hpd, hkcv, hpg, hbr⟩ := tvLoop_cons_ok h
    have hks := hk spec (List.mem_cons_self _ _)
    have hkrest : ∀ m ∈ rest, k ≠ m.name ++ "_version" ∧ k ≠ m.name ++ "_source_url"
        ∧ k ≠ m.name ++ "_version_date" ∧ k ≠ m.name ++ "_sha256" :=
      fun m hm => hk m (List.mem_cons_of_mem _ hm)
    rcases hbr with ⟨hg, htail⟩ | ⟨hg, env4, hms, htail⟩
    · rw [ih htail k hkrest,
        lookupA_dictInsert_ne _ _ _ _ hks.2.2.1,
        lookupA_dictInsert_ne _ _ _ _ hks.2.1,
        lookupA_dictInsert_ne _ _ _ _ hks.1]
    · rw [ih htail k hkrest,
        manifestShaLoop_preserve hms k hks.2.2.2,
        lookupA_dictInsert_ne _ _ _ _ hks.2.2.1,
        lookupA_dictInsert_ne _ _ _ _ hks.2.1,
        lookupA_dictInsert_ne _ _ _ _ hks.1]

lemma tvLoop_remote_frozen {cur : List (String × Version)} {new : List (String × PyVal)}
    {man : Manifest} :
    ∀ {mods : List ModuleSpec} {env : List (String × PyVal)}
      {rem : List (String × String)} {env' : List (String × PyVal)}
      {rem' : List (String × String)},
      tvLoop cur new man mods env rem = .ok (env', rem') →
      ∀ n, n ∉ mods.map (fun m => m.name) →
      lookupA rem' n = lookupA rem n := by
  intro mods
  induction mods with
  | nil =>
    intro env rem env' rem' h n hn
    injection h with h2
    injection h2 with ha hb
    subst hb
    rfl
  | cons spec rest ih =>
    intro env rem env' rem' h n hn
    obtain ⟨nv, d, cv, g, hknv, hpd, hkcv, hpg, hbr⟩ := tvLoop_cons_ok h
    have hn1 : n ≠ spec.name := by
      intro hh
      exact hn (by simp [hh])
    have hn2 : n ∉ rest.map (fun m => m.name) := by
      intro hh
      exact hn (by simp [hh])
    rcases hbr with ⟨hg, htail⟩ | ⟨hg, env4, hms, htail⟩
    · rw [ih htail n hn2, lookupA_dictInsert_ne _ _ _ _ hn1]
    · rw [ih htail n hn2]

lemma tvLoop_spec_aux {cur : List (String × Version)} {new : List (String × PyVal)}
    {man : Manifest} {spec : ModuleSpec} {nv cv : Version}
    (hnv : lookupA new spec.name = some (.vVersion nv))
    (hcv : lookupA cur spec.name = some cv) :
    ∀ {mods : List ModuleSpec} {env : List (String × PyVal)}
      {rem : List (String × String)} {env' : List (String × PyVal)}
      {rem' : List (String × String)},
      spec ∈ mods →
      (mods.map (fun m => m.name)).Nodup →
      lookupA rem spec.name = none →
      tvLoop cur new man mods env rem = .ok (env', rem') →
      ((lookupA rem' spec.name).isSome = Version.gt nv cv
       ∧ (Version.gt nv cv = false →
           ∀ (mm : ManifestModule) (src : SrcEntry) (srest : List SrcEntry),
             man.modules.filter (fun m => m.name == spec.name) = [mm] →
             mm.sources = src :: srest →
             lookupA env' (spec.name ++ "_sha256") = some (.vStr src.sha256))) := by
  intro mods
  induction mods with
  | nil =>
    intro env rem env' rem' hmem
    exact absurd hmem (by simp)
  | cons m rest ih =>
    intro env rem env' rem' hmem hnd hrem h
    obtain ⟨nv0, d0, cv0, g0, hknv, hpd, hkcv, hpg, hbr⟩ := tvLoop_cons_ok h
    have hnd0 : (m.name :: rest.map (fun m => m.name)).Nodup := by simpa using hnd
    have hnd1 : m.name ∉ rest.map (fun m => m.name) := (List.nodup_cons.mp hnd0).1
    have hndrest : (rest.map (fun m => m.name)).Nodup := (List.nodup_cons.mp hnd0).2
    by_cases hsm : spec = m
    · subst hsm
      have he1 : keyE new spec.name = .ok (.vVersion nv) := by
        unfold keyE
        rw [hnv]
      rw [he1] at hknv
      injection hknv with hnv0
      subst hnv0
      have he2 : keyE cur spec.name = .ok cv := by
        unfold keyE
        rw [hcv]
      rw [he2] at hkcv
      injection hkcv with hcv0
      subst hcv0
      have he3 : pyGtVersion (.vVersion nv) cv = .ok (Version.gt nv cv) := rfl
      rw [he3] at hpg
      injection hpg with hg0
      subst hg0
      rcases hbr with ⟨hg, htail⟩ | ⟨hg, env4, hms, htail⟩
      · constructor
        · rw [tvLoop_remote_frozen htail spec.name hnd1, lookupA_dictInsert_self, hg]
          rfl
        · intro hfalse
          rw [hg] at hfalse
          exact absurd hfalse (by simp)
      · constructor
        · rw [tvLoop_remote_frozen htail spec.name hnd1, hrem, hg]
          rfl
        · intro _ mm src srest hf hsrc
          obtain ⟨env4', hok, hlook⟩ := manifestShaLoop_unique hsrc
            (dictInsert (dictInsert (dictInsert env (spec.name ++ "_version")
              (PyVal.vVersion nv)) (spec.name ++ "_source_url")
              (.vStr (pyFormat spec.source_url (pyStr (PyVal.vVersion nv)))))
              (spec.name ++ "_version_date") d0) hf
          rw [hms] at hok
          injection hok with henv4
          subst henv4
          have hkeys : ∀ mr ∈ rest,
              spec.name ++ "_sha256" ≠ mr.name ++ "_version"
              ∧ spec.name ++ "_sha256" ≠ mr.name ++ "_source_url"
              ∧ spec.name ++ "_sha256" ≠ mr.name ++ "_version_date"
              ∧ spec.name ++ "_sha256" ≠ mr.name ++ "_sha256" := by
            intro mr hmr
            have hmm : mr.name ≠ spec.name := by
              intro hh
              apply hnd1
              rw [← hh]
              exact List.mem_map_of_mem _ hmr
            refine ⟨sha_ne_version_key spec.name mr.name,
              sha_ne_source_url_key spec.name mr.name,
              sha_ne_version_date_key spec.name mr.name, ?_⟩
            intro hh
            exact hmm (sha_key_inj hh).symm
          rw [tvLoop_env_preserved htail (spec.name ++ "_sha256") hkeys]
          exact hlook
    · have hmem2 : spec ∈ rest := by
        rcases List.mem_cons.mp hmem with h1 | h1
        · exact absurd h1 hsm
        · exact h1
      have hname : spec.name ≠ m.name := by
        intro hh
        apply hnd1
        rw [← hh]
        exact List.mem_map_of_mem _ hmem2
      rcases hbr with ⟨hg, htail⟩ | ⟨hg, env4, hms, htail⟩
      · refine ih hmem2 hndrest ?_ htail
        rw [lookupA_dictInsert_ne _ _ _ _ hname]
        exact hrem
      · exact ih hmem2 hndrest hrem htail

lemma foldl_dictInsert_preserve :
    ∀ {ps : List (String × String)} {env : List (String × PyVal)} {k : String},
      (∀ p ∈ ps, p.1 ≠ k) →
      lookupA (ps.foldl (fun e p => dictInsert e p.1 (.vStr p.2)) env) k = lookupA env k := by
  intro ps
  induction ps with
  | nil => intro env k _; rfl
  | cons p rest ih =>
    intro env k hk
    show lookupA (rest.foldl (fun e p => dictInsert e p.1 (.vStr p.2))
      (dictInsert env p.1 (.vStr p.2))) k = _
    rw [ih (fun q hq => hk q (List.mem_cons_of_mem _ hq)),
      lookupA_dictInsert_ne _ _ _ _
        (fun hh => hk p (List.mem_cons_self _ _) hh.symm)]

/-- C7: in get_template_vars, a module whose resolved version is strictly
greater (per Version ordering) than its manifest-pinned version is placed
in the fresh-checksum batch (remote_sha256), and exactly then; a module
whose resolved version is equal or lesser is not in the batch, and its
{name}_sha256 env entry is the sha256 recorded for that module in the
manifest. -/
theorem claim_C7 (net : String → List Nat) (st : FsState) (config : Config)
    (cur : List (String × Version)) (new : List (String × PyVal)) (man : Manifest)
    (spec : ModuleSpec) (nv cv : Version) (rv : PyVal)
    (env1 envF : List (String × PyVal)) (remoteF : List (String × String))
    (stF : FsState)
    (hmem : spec ∈ config.modules)
    (hnd : (config.modules.map (fun m => m.name)).Nodup)
    (hnv : lookupA new spec.name = some (.vVersion nv))
    (hcv : lookupA cur spec.name = some cv)
    (hrv : lookupA new "runtime" = some rv)
    (hloop : tvLoop cur new man config.modules
      (dictInsert [] "runtime_version" rv) [] = .ok (env1, remoteF))
    (hgtv : get_template_vars net st config cur new man = .ok (envF, stF)) :
    (lookupA remoteF spec.name).isSome = Version.gt nv cv
    ∧ (Version.gt nv cv = false →
        ∀ (mm : ManifestModule) (src : SrcEntry) (srest : List SrcEntry),
          man.modules.filter (fun m => m.name == spec.name) = [mm] →
          mm.sources = src :: srest →
          lookupA envF (spec.name ++ "_sha256") = some (.vStr src.sha256)) := by
  have haux := tvLoop_spec_aux hnv hcv hmem hnd
    (show lookupA ([] : List (String × String)) spec.name = none from rfl) hloop
  refine ⟨haux.1, ?_⟩
  intro hgt mm src srest hf hsrc
  have henv1 := haux.2 hgt mm src srest hf hsrc
  have hkrv : keyE new "runtime" = .ok rv := by
    unfold keyE
    rw [hrv]
  unfold get_template_vars at hgtv
  rw [hkrv] at hgtv
  have hg2 : (match tvLoop cur new man config.modules
      (dictInsert [] "runtime_version" rv) [] with
    | Except.error e => Except.error e
    | Except.ok (env, remote) =>
      Except.ok ((get_sha256_set net st remote).1.foldl
        (fun (e : List (String × PyVal)) (p : String × String) =>
          dictInsert e p.1 (PyVal.vStr p.2)) env,
        (get_sha256_set net st remote).2)) = .ok (envF, stF) := hgtv
  rw [hloop] at hg2
  have hg3 : Except.ok ((get_sha256_set net st remoteF).1.foldl
      (fun (e : List (String × PyVal)) (p : String × String) =>
        dictInsert e p.1 (PyVal.vStr p.2)) env1,
      (get_sha256_set net st remoteF).2) = Except.ok (envF, stF) := hg2
  injection hg3 with hg4
  injection hg4 with hE hS
  rw [← hE]
  have hnone : lookupA remoteF spec.name = none := by
    cases hl : lookupA remoteF spec.name with
    | none => rfl
    | some v =>
      have h1 := haux.1
      rw [hl, hgt] at h1
      exact absurd h1 (by simp)
  have hkeys2 : ∀ p ∈ (get_sha256_set net st remoteF).1,
      p.1 ≠ spec.name ++ "_sha256" := by
    intro p hp hpe
    obtain ⟨a, b⟩ := p
    have hz := mem_dictOf hp
    have hfst := (List.of_mem_zip hz).1
    rw [List.mem_map] at hfst
    obtain ⟨q, hq, hqe⟩ := hfst
    have hqn : q.1 = spec.name := sha_key_inj (hqe.trans hpe)
    rw [lookupA_eq_none_iff] at hnone
    apply hnone q.2
    rw [← hqn]
    exact hq
  rw [foldl_dictInsert_preserve hkeys2]
  exact henv1

theorem claim_C7_witness :
    (lookupA ([] : List (String × String)) "b").isSome =
      Version.gt ⟨[1, 0], none⟩ ⟨[1], none⟩
    ∧ lookupA [("runtime_version", PyVal.vVersion ⟨[1], none⟩),
        ("b_version", PyVal.vVersion ⟨[1, 0], none⟩),
        ("b_source_url", PyVal.vStr "https://x/1.0.tar.gz"),
        ("b_version_date", PyVal.vNone),
        ("b_sha256", PyVal.vStr "cafe")] ("b" ++ "_sha256") =
      some (PyVal.vStr "cafe") := by
  have hc := claim_C7 (fun _ => []) ⟨[]⟩
    ⟨⟨"runtime", "", ⟨"scrape"⟩⟩, [⟨"b", "https://x/{version}.tar.gz", ⟨"scrape"⟩⟩]⟩
    [("b", ⟨[1], none⟩)]
    [("runtime", .vVersion ⟨[1], none⟩), ("b", .vVersion ⟨[1, 0], none⟩)]
    ⟨"1", [⟨"b", [⟨"u", "cafe"⟩]⟩]⟩
    ⟨"b", "https://x/{version}.tar.gz", ⟨"scrape"⟩⟩
    ⟨[1, 0], none⟩ ⟨[1], none⟩ (.vVersion ⟨[1], none⟩)
    [("runtime_version", PyVal.vVersion ⟨[1], none⟩),
     ("b_version", PyVal.vVersion ⟨[1, 0], none⟩),
     ("b_source_url", PyVal.vStr "https://x/1.0.tar.gz"),
     ("b_version_date", PyVal.vNone),
     ("b_sha256", PyVal.vStr "cafe")]
    [("runtime_version", PyVal.vVersion ⟨[1], none⟩),
     ("b_version", PyVal.vVersion ⟨[1, 0], none⟩),
     ("b_source_url", PyVal.vStr "https://x/1.0.tar.gz"),
     ("b_version_date", PyVal.vNone),
     ("b_sha256", PyVal.vStr "cafe")]
    [] ⟨[]⟩
    (by decide) (by decide) (by decide) (by decide) (by decide)
    (by decide) (by decide)
  exact ⟨hc.1, hc.2 (by decide) ⟨"b", [⟨"u", "cafe"⟩]⟩ ⟨"u", "cafe"⟩ []
    (by decide) rfl⟩
